import Mathlib

/-!
Verification of the scrape coverage auditor (`src/data/scrape_audit.py`).

Python strings are modelled as `List Char` (`Str`).  Python string methods
and the pieces of `urllib.parse` used by the auditor are translated from
the CPython sources.  Modelling notes:

* character-level operations (`lower`, `upper`, `title`, whitespace) follow
  the ASCII behaviour; the audited data is ASCII.
* `canonicalize_url` wraps `urljoin`/`urlsplit` in `try/except` and returns
  `None` on an exception; exceptions inside that block are modelled as
  `none`.  The unguarded `parsed.port` access can raise `ValueError` for a
  non-numeric or out-of-range port; that uncaught exception is also
  modelled as `none` (in the surrounding program it is caught at the
  per-venue boundary and yields a degraded row).
* network fetches are I/O; `audit_venue` takes the `fetch_source` result
  (the two bodies and the two error slots) as an explicit argument, and
  `fetch_source_combine` rebuilds that record from the two
  `fetch_text` results exactly as `fetch_source` does (`text or ""`).
* Python `dict`s holding ICS fields are modelled as association lists with
  replace-or-append insertion (last occurrence of a field wins, as in the
  source); JSON records are modelled as structures of `Option Str` fields
  where `none` is an absent/null field.
* floats are modelled by `ℚ`: `round(x, 4)` becomes exact rational
  rounding half-to-even (`round4`).
-/

abbrev Str := List Char

/-- Python whitespace for `str.strip` and the regex class `\s` (ASCII part). -/
def pyIsSpace (c : Char) : Bool :=
  c = ' ' ∨ c = '\t' ∨ c = '\n' ∨ c = '\r' ∨ c = '\x0b' ∨ c = '\x0c'

def pyLstrip (s : Str) : Str := s.dropWhile pyIsSpace

def pyRstrip (s : Str) : Str := (s.reverse.dropWhile pyIsSpace).reverse

/-- Python `str.strip()`. -/
def pyStrip (s : Str) : Str := pyRstrip (pyLstrip s)

/-- Python `str.rstrip(chars)` for a set of characters. -/
def pyRstripSet (p : Char → Bool) (s : Str) : Str := (s.reverse.dropWhile p).reverse

/-- Python `str.rstrip("/")`. -/
def pyRstripSlash (s : Str) : Str := pyRstripSet (· = '/') s

def pyLower (s : Str) : Str := s.map Char.toLower

def pyUpper (s : Str) : Str := s.map Char.toUpper

/-- Python `needle in hay` on strings (contiguous substring). -/
def containsStr (needle hay : Str) : Bool := decide (needle <:+: hay)

/-- Python `s.startswith(p)`. -/
def startsWithStr (p s : Str) : Bool := p.isPrefixOf s

/-- Python `s.endswith(p)`. -/
def endsWithStr (p s : Str) : Bool := p.isSuffixOf s

def isAsciiDigit (c : Char) : Bool := '0' ≤ c ∧ c ≤ '9'

def isAsciiAlpha (c : Char) : Bool := ('a' ≤ c ∧ c ≤ 'z') ∨ ('A' ≤ c ∧ c ≤ 'Z')

def isAsciiAlnum (c : Char) : Bool := isAsciiAlpha c ∨ isAsciiDigit c

/-- Split at the first occurrence of `c` : `some (before, after)`, or `none`
when `c` does not occur (Python `s.split(c, 1)` / `s.find`). -/
def splitFirst (c : Char) : Str → Option (Str × Str)
  | [] => none
  | a :: rest =>
    if a = c then some ([], rest)
    else (splitFirst c rest).map (fun p => (a :: p.1, p.2))

/-- Python `s.split(c)` (always at least one piece). -/
def splitAll (c : Char) : Str → List Str
  | [] => [[]]
  | a :: rest =>
    if a = c then [] :: splitAll c rest
    else
      match splitAll c rest with
      | h :: t => (a :: h) :: t
      | [] => [[a]]

/-- Python `sep.join(parts)` for a one-character separator. -/
def joinChar (c : Char) : List Str → Str
  | [] => []
  | [p] => p
  | p :: rest => p ++ c :: joinChar c rest

/-- Python `s.partition(c)`: split at the first occurrence,
`(before, found?, after)`. -/
def partitionChar (c : Char) : Str → Str × Bool × Str
  | [] => ([], false, [])
  | a :: rest =>
    if a = c then ([], true, rest)
    else
      let r := partitionChar c rest
      (a :: r.1, r.2.1, r.2.2)

/-- Python `s.rpartition(c)`: split at the last occurrence; when `c` does not
occur the result is `("", "", s)` (everything in the third slot). -/
def rpartitionChar (c : Char) (s : Str) : Str × Bool × Str :=
  let r := partitionChar c s.reverse
  if r.2.1 then (r.2.2.reverse, true, r.1.reverse) else ([], false, s)

/-- Decimal digit character for `0 ≤ n ≤ 9`. -/
def digitChar (n : Nat) : Char := Char.ofNat (48 + n)

/-- Decimal rendering, most significant digit first, by repeated division;
`fuel ≥ n + 1` always suffices since `n / 10 < n` for `n ≥ 10`. -/
def natToStrGo : Nat → Nat → Str → Str
  | 0, _, acc => acc
  | f + 1, n, acc =>
    if n < 10 then digitChar n :: acc
    else natToStrGo f (n / 10) (digitChar (n % 10) :: acc)

/-- Decimal rendering of a natural number (Python `f"{n}"`). -/
def natToStr (n : Nat) : Str := natToStrGo (n + 1) n []

/-- Value of a string of decimal digits (Python `int(s, 10)` on digits). -/
def digitsToNat (s : Str) : Nat :=
  s.foldl (fun a c => a * 10 + (c.toNat - 48)) 0

/-- Replace every non-overlapping occurrence of the two-character pattern
`a b` by `rep`, left to right (Python `s.replace(ab, rep)` for two-character
patterns). -/
def replacePair (a b : Char) (rep : Str) : Str → Str
  | [] => []
  | [c] => [c]
  | c :: d :: rest =>
    if c = a ∧ d = b then rep ++ replacePair a b rep rest
    else c :: replacePair a b rep (d :: rest)

/-- State-machine form of `re.sub(r"\s+", " ", s)`: a whitespace character
is emitted as a single space unless the previous character was already
whitespace (so each maximal whitespace run becomes one space). -/
def collapseWsGo (prevWs : Bool) : Str → Str
  | [] => []
  | c :: cs =>
    if pyIsSpace c then
      if prevWs then collapseWsGo true cs else ' ' :: collapseWsGo true cs
    else c :: collapseWsGo false cs

/-- Replace runs of whitespace by a single space
(Python `re.sub(r"\s+", " ", s)`). -/
def collapseWs (s : Str) : Str := collapseWsGo false s

/-- State-machine form of `re.sub(r"/{2,}", "/", s)`: each maximal run of
slashes becomes a single slash (a lone slash is untouched, so the regex,
which only rewrites runs of length at least two, agrees). -/
def collapseSlashesGo (prevSlash : Bool) : Str → Str
  | [] => []
  | c :: cs =>
    if c = '/' then
      if prevSlash then collapseSlashesGo true cs
      else '/' :: collapseSlashesGo true cs
    else c :: collapseSlashesGo false cs

/-- Replace runs of two or more slashes by a single slash
(Python `re.sub(r"/{2,}", "/", s)`). -/
def collapseSlashes (s : Str) : Str := collapseSlashesGo false s

/-- Python lexicographic `a <= b` on strings (by code point). -/
def strLe : Str → Str → Bool
  | [], _ => true
  | _ :: _, [] => false
  | x :: xs, y :: ys =>
    if x.val < y.val then true
    else if y.val < x.val then false
    else strLe xs ys

/-- Truthiness of an optional string (`bool(x)` for `x : str | None`). -/
def optStrTruthy (s : Option Str) : Bool := (s.getD []) ≠ []

/-! ### Model of the pieces of CPython `urllib.parse` used by the auditor -/

/-- Characters allowed in a URL scheme after the first letter
(CPython `scheme_chars`). -/
def schemeChars (c : Char) : Bool :=
  isAsciiAlnum c ∨ c = '+' ∨ c = '-' ∨ c = '.'

/-- CPython `urlsplit` strips leading C0-control-or-space characters. -/
def whatwgLstrip (s : Str) : Str := s.dropWhile (fun c => c.val ≤ 0x20)

/-- CPython `urlsplit` removes every tab, CR and LF. -/
def removeTabCrLf (s : Str) : Str :=
  s.filter (fun c => ¬ (c = '\t' ∨ c = '\r' ∨ c = '\n'))

structure SplitResult where
  scheme : Str
  netloc : Str
  path : Str
  query : Str
  fragment : Str

/-- CPython `_splitnetloc`: the netloc extends to the first `/`, `?` or `#`. -/
def netlocStop (c : Char) : Bool := c = '/' ∨ c = '?' ∨ c = '#'

/-- CPython `urllib.parse.urlsplit(url, scheme="")` with `allow_fragments`
true.  `none` models the `ValueError` raised for a netloc containing exactly
one of `[`, `]`.  (The NFKC netloc check and bracketed-host validation, which
only concern non-ASCII or bracketed hosts, are not modelled.) -/
def pyUrlsplit (urlIn : Str) (defaultScheme : Str := []) : Option SplitResult :=
  let url := removeTabCrLf (whatwgLstrip urlIn)
  let dflt := removeTabCrLf ((whatwgLstrip ((whatwgLstrip defaultScheme).reverse)).reverse)
  let sr :=
    match splitFirst ':' url with
    | some (before, after) =>
      let okHead : Bool :=
        match before.head? with
        | some c => decide (c.val < 128) && isAsciiAlpha c
        | none => false
      if before ≠ [] ∧ okHead ∧ (before.drop 1).all schemeChars then
        (pyLower before, after)
      else (dflt, url)
    | none => (dflt, url)
  let scheme := sr.1
  let rest := sr.2
  let hasNetloc := decide (rest.take 2 = ['/', '/'])
  let netloc := if hasNetloc then (rest.drop 2).takeWhile (fun c => ¬ netlocStop c) else []
  let rest2 := if hasNetloc then (rest.drop 2).dropWhile (fun c => ¬ netlocStop c) else rest
  if (decide ('[' ∈ netloc)) ≠ (decide (']' ∈ netloc)) then none
  else
    let fr := match splitFirst '#' rest2 with
      | some (a, b) => (a, b)
      | none => (rest2, [])
    let qu := match splitFirst '?' fr.1 with
      | some (a, b) => (a, b)
      | none => (fr.1, [])
    some ⟨scheme, netloc, qu.1, qu.2, fr.2⟩

/-- CPython `SplitResult._hostinfo`: strip userinfo at the last `@`, then
split host and port (with bracket handling). -/
def hostinfo (netloc : Str) : Str × Option Str :=
  let hi := (rpartitionChar '@' netloc).2.2
  let br := partitionChar '[' hi
  if br.2.1 then
    let h := partitionChar ']' br.2.2
    let p := partitionChar ':' h.2.2
    (h.1, if p.2.2 = [] then none else some p.2.2)
  else
    let h := partitionChar ':' hi
    (h.1, if h.2.2 = [] then none else some h.2.2)

/-- CPython `SplitResult.hostname`: lower-case the host (the part before a
`%` zone separator); `None` when empty. -/
def pyHostname (netloc : Str) : Option Str :=
  let h := (hostinfo netloc).1
  if h = [] then none
  else
    let z := partitionChar '%' h
    if z.2.1 then some (pyLower z.1 ++ '%' :: z.2.2) else some (pyLower h)

/-- CPython `SplitResult.port`: `ok none` when absent, `ok (some n)` for a
digit port in range, `error` for the `ValueError` cases (non-digit or out of
range). -/
def pyPortVal (netloc : Str) : Except Unit (Option Nat) :=
  match (hostinfo netloc).2 with
  | none => .ok none
  | some p =>
    if p.all isAsciiDigit then
      let n := digitsToNat p
      if n ≤ 65535 then .ok (some n) else .error ()
    else .error ()

/-- CPython `urlunsplit`. -/
def pyUrlunsplit (scheme netloc path query fragment : Str) : Str :=
  let url :=
    if netloc ≠ [] ∨ (path ≠ [] ∧ path.take 2 = ['/', '/']) then
      '/' :: '/' :: netloc ++
        (if path ≠ [] ∧ path.take 1 ≠ ['/'] then '/' :: path else path)
    else path
  let url := if scheme ≠ [] then scheme ++ ':' :: url else url
  let url := if query ≠ [] then url ++ '?' :: query else url
  if fragment ≠ [] then url ++ '#' :: fragment else url

/-- CPython `uses_relative` scheme list. -/
def usesRelative : List Str :=
  [[], ("ftp").toList, ("http").toList, ("gopher").toList, ("nntp").toList,
   ("imap").toList, ("wais").toList, ("file").toList, ("https").toList,
   ("shttp").toList, ("mms").toList, ("prospero").toList, ("rtsp").toList,
   ("rtspu").toList, ("rtsps").toList, ("sftp").toList, ("svn").toList,
   ("svn+ssh").toList, ("ws").toList, ("wss").toList]

/-- CPython `uses_netloc` scheme list. -/
def usesNetloc : List Str :=
  [[], ("ftp").toList, ("http").toList, ("gopher").toList, ("nntp").toList,
   ("telnet").toList, ("imap").toList, ("wais").toList, ("file").toList,
   ("mms").toList, ("https").toList, ("shttp").toList, ("snews").toList,
   ("prospero").toList, ("rtsp").toList, ("rtspu").toList, ("rtsps").toList,
   ("rtp").toList, ("sip").toList, ("sips").toList, ("sftp").toList,
   ("tel").toList, ("ws").toList, ("wss").toList]

/-- CPython `uses_params` scheme list. -/
def usesParams : List Str :=
  [[], ("ftp").toList, ("hdl").toList, ("prospero").toList, ("http").toList,
   ("imap").toList, ("https").toList, ("shttp").toList, ("rtsp").toList,
   ("rtsps").toList, ("rtspu").toList, ("sip").toList, ("sips").toList,
   ("mms").toList, ("sftp").toList, ("tel").toList]

structure ParseResult where
  scheme : Str
  netloc : Str
  path : Str
  params : Str
  query : Str
  fragment : Str

/-- CPython `_splitparams`: split `;params` off the last path segment. -/
def splitParams (url : Str) : Str × Str :=
  if decide ('/' ∈ url) then
    let r := rpartitionChar '/' url
    match splitFirst ';' r.2.2 with
    | some (a, b) => (r.1 ++ '/' :: a, b)
    | none => (url, [])
  else
    match splitFirst ';' url with
    | some (a, b) => (a, b)
    | none => (url.dropLast, url)

/-- CPython `urlparse`. -/
def pyUrlparse (url : Str) (defaultScheme : Str := []) : Option ParseResult :=
  (pyUrlsplit url defaultScheme).map fun sr =>
    if sr.scheme ∈ usesParams ∧ decide (';' ∈ sr.path) then
      let pp := splitParams sr.path
      ⟨sr.scheme, sr.netloc, pp.1, pp.2, sr.query, sr.fragment⟩
    else ⟨sr.scheme, sr.netloc, sr.path, [], sr.query, sr.fragment⟩

/-- CPython `urlunparse`. -/
def pyUrlunparse (scheme netloc path params query fragment : Str) : Str :=
  pyUrlunsplit scheme netloc
    (if params ≠ [] then path ++ ';' :: params else path) query fragment

/-- One step of CPython `urljoin`'s segment resolution loop. -/
def resolveSegs : List Str → List Str → List Str
  | acc, [] => acc
  | acc, seg :: rest =>
    if seg = ['.', '.'] then resolveSegs acc.dropLast rest
    else if seg = ['.'] then resolveSegs acc rest
    else resolveSegs (acc ++ [seg]) rest

/-- CPython `urljoin(base, url)` (allow_fragments true); `none` models a
propagated `ValueError` from `urlsplit`. -/
def pyUrljoin (base url : Str) : Option Str :=
  if base = [] then some url
  else if url = [] then some base
  else
    match pyUrlparse base [] with
    | none => none
    | some b =>
      match pyUrlparse url b.scheme with
      | none => none
      | some u =>
        if u.scheme ≠ b.scheme ∨ u.scheme ∉ usesRelative then some url
        else if u.scheme ∈ usesNetloc ∧ u.netloc ≠ [] then
          some (pyUrlunparse u.scheme u.netloc u.path u.params u.query u.fragment)
        else
          let netloc := if u.scheme ∈ usesNetloc then b.netloc else u.netloc
          if u.path = [] ∧ u.params = [] then
            let query := if u.query = [] then b.query else u.query
            some (pyUrlunparse u.scheme netloc b.path b.params query u.fragment)
          else
            let baseParts0 := splitAll '/' b.path
            let baseParts :=
              if baseParts0.getLast? ≠ some [] then baseParts0.dropLast else baseParts0
            let segments :=
              if u.path.take 1 = ['/'] then splitAll '/' u.path
              else
                match baseParts ++ splitAll '/' u.path with
                | [] => []
                | [x] => [x]
                | x :: more =>
                  x :: (more.dropLast.filter (· ≠ [])) ++ more.getLast?.toList
            let resolved0 := resolveSegs [] segments
            let resolved :=
              if segments.getLast? = some ['.'] ∨ segments.getLast? = some ['.', '.'] then
                resolved0 ++ [[]]
              else resolved0
            let path := joinChar '/' resolved
            some (pyUrlunparse u.scheme netloc (if path = [] then ['/'] else path)
              u.params u.query u.fragment)

/-! ### URL canonicalizer, same-site filter, path heuristic (scrape_audit.py) -/

/-- `normalize_host` from scrape_audit.py: strip, lower, drop one leading
`www.`; empty/None becomes `""`. -/
def normalize_host (host : Option Str) : Str :=
  match host with
  | none => []
  | some h =>
    if h = [] then []
    else
      let normalized := pyLower (pyStrip h)
      if startsWithStr (("www.").toList) normalized then normalized.drop 4
      else normalized

/-- `canonicalize_url` from scrape_audit.py.  The `try/except` around
`urljoin`/`urlsplit` is the two `none` propagations; the uncaught
`parsed.port` `ValueError` is modelled as `none` (see the header note). -/
def canonicalize_url (candidate : Str) (base_url : Option Str := none) : Option Str :=
  if candidate = [] then none
  else
    let raw := pyStrip candidate
    if raw = [] then none
    else
      let lowered := pyLower raw
      if startsWithStr (("mailto:").toList) lowered
          ∨ startsWithStr (("tel:").toList) lowered
          ∨ startsWithStr (("javascript:").toList) lowered
          ∨ startsWithStr (("#").toList) lowered then none
      else
        let raw := if startsWithStr (("//").toList) raw then ("https:").toList ++ raw else raw
        match pyUrljoin (base_url.getD []) raw with
        | none => none
        | some joined =>
          match pyUrlsplit joined [] with
          | none => none
          | some parsed =>
            if pyLower parsed.scheme ≠ ("http").toList
                ∧ pyLower parsed.scheme ≠ ("https").toList then none
            else
              let host := normalize_host (pyHostname parsed.netloc)
              if host = [] then none
              else
                match pyPortVal parsed.netloc with
                | .error _ => none
                | .ok portOpt =>
                  let netloc :=
                    match portOpt with
                    | some p => if p ≠ 0 then host ++ ':' :: natToStr p else host
                    | none => host
                  let path0 := collapseSlashes (if parsed.path = [] then ['/'] else parsed.path)
                  let path := if path0 ≠ ['/'] then pyRstripSlash path0 else path0
                  some (pyUrlunsplit (pyLower parsed.scheme) netloc path [] [])

/-- `is_same_site` from scrape_audit.py. -/
def is_same_site (url domain : Str) : Bool :=
  match pyUrlsplit url [] with
  | none => false
  | some sr =>
    let host := normalize_host (pyHostname sr.netloc)
    let target := normalize_host (some domain)
    if host = [] ∨ target = [] then false
    else host = target ∨ endsWithStr ('.' :: target) host ∨ endsWithStr ('.' :: host) target

def stripOneTrailingSlash (p : Str) : Str :=
  if p.getLast? = some '/' then p.dropLast else p

def trailingDigits (p : Str) : Str := (p.reverse.takeWhile isAsciiDigit).reverse

/-- Recognizer for the regex fragment `\d{4}-\d{2}-\d{2}` as a whole string. -/
def isDateSeg : Str → Bool
  | [a, b, c, d, e, f, g, h, i, j] =>
    isAsciiDigit a ∧ isAsciiDigit b ∧ isAsciiDigit c ∧ isAsciiDigit d ∧ e = '-'
      ∧ isAsciiDigit f ∧ isAsciiDigit g ∧ h = '-' ∧ isAsciiDigit i ∧ isAsciiDigit j
  | _ => false

/-- When `p` ends with `/YYYY-MM-DD`, the three captured groups. -/
def dateTail (p : Str) : Option (Str × Str × Str) :=
  match p.drop (p.length - 11) with
  | '/' :: rest =>
    if isDateSeg rest then some (rest.take 4, (rest.drop 5).take 2, (rest.drop 8).take 2)
    else none
  | _ => none

/-- Captures of `re.search(r"/(\d{4})-(\d{2})-(\d{2})(?:/\d+)?/?$", p)`:
an optional trailing slash, then an optional `/<digits>` id segment, after a
`/YYYY-MM-DD` segment. -/
def dateUrlGroups (p : Str) : Option (Str × Str × Str) :=
  let q := stripOneTrailingSlash p
  let ds := trailingDigits q
  let q2 := q.take (q.length - ds.length)
  if ds ≠ [] ∧ q2.getLast? = some '/' then
    match dateTail q2.dropLast with
    | some g => some g
    | none => dateTail q
  else dateTail q

/-- Match of `re.search(r"/events/page/\d+/?$", p)` (digits nonempty). -/
def matchEventsPage (p : Str) : Bool :=
  let q := stripOneTrailingSlash p
  let ds := trailingDigits q
  ds ≠ [] ∧ endsWithStr (("/events/page/").toList) (q.take (q.length - ds.length))

/-- Match of `re.search(r"/events/v\d+/?$", p)`. -/
def matchEventsVn (p : Str) : Bool :=
  let q := stripOneTrailingSlash p
  let ds := trailingDigits q
  ds ≠ [] ∧ endsWithStr (("/events/v").toList) (q.take (q.length - ds.length))

/-- Disjunction of the `EVENT_EXCLUDE_PATTERNS` regex searches on the
(lower-cased) path.  Unanchored searches with a trailing optional `/?` reduce
to substring tests; `$`-anchored ones to suffix tests. -/
def likelyExcluded (path : Str) : Bool :=
  endsWithStr (("/event").toList) path ∨ endsWithStr (("/events").toList) path
  ∨ matchEventsPage path
  ∨ containsStr (("/events/feed").toList) path
  ∨ containsStr (("/events/month").toList) path
  ∨ containsStr (("/events/list").toList) path
  ∨ containsStr (("/events/map").toList) path
  ∨ containsStr (("/events/day").toList) path
  ∨ containsStr (("/events/week").toList) path
  ∨ containsStr (("/events/calendar").toList) path
  ∨ containsStr (("/events/category/").toList) path
  ∨ containsStr (("/events/tag/").toList) path
  ∨ containsStr (("/events/venue/").toList) path
  ∨ containsStr (("/events/organizer/").toList) path
  ∨ matchEventsVn path
  ∨ containsStr (("/wp-json").toList) path
  ∨ containsStr (("/api/").toList) path
  ∨ containsStr (("/rss").toList) path
  ∨ containsStr (("/search").toList) path
  ∨ containsStr (("/cart").toList) path
  ∨ containsStr (("/checkout").toList) path
  ∨ containsStr (("/login").toList) path
  ∨ containsStr (("/signup").toList) path

/-- Disjunction of the `EVENT_INCLUDE_PATTERNS` regex searches. -/
def likelyIncluded (path : Str) : Bool :=
  containsStr (("/event/").toList) path
  ∨ containsStr (("/events/").toList) path
  ∨ containsStr (("/show/").toList) path
  ∨ containsStr (("/shows/").toList) path
  ∨ containsStr (("/ticket").toList) path
  ∨ containsStr (("/buy-tickets").toList) path
  ∨ containsStr (("/tm-event/").toList) path
  ∨ containsStr (("/program/").toList) path
  ∨ containsStr (("/programs/").toList) path

/-- The path of a URL as seen by `urlsplit(url).path` (the auditor only
calls this on already-canonical URLs, for which `urlsplit` cannot raise). -/
def urlPathOf (url : Str) : Str :=
  match pyUrlsplit url [] with
  | some sr => sr.path
  | none => []

/-- `likely_event_url` from scrape_audit.py: exclusion patterns first, then
the trailing-date pattern, then inclusion patterns. -/
def likely_event_url (url : Str) : Bool :=
  let path := pyLower (urlPathOf url)
  if likelyExcluded path then false
  else if (dateUrlGroups path).isSome then true
  else likelyIncluded path

/-! ### Event keys (scrape_audit.py) -/

/-- Characters kept by `re.sub(r"[^a-z0-9\s-]", "", text)`. -/
def titleKeyChar (c : Char) : Bool :=
  ('a' ≤ c ∧ c ≤ 'z') ∨ isAsciiDigit c ∨ pyIsSpace c ∨ c = '-'

/-- `normalize_title_for_key` from scrape_audit.py. -/
def normalize_title_for_key (title : Option Str) : Str :=
  let t := title.getD []
  if t = [] then []
  else
    let text := pyStrip (pyLower t)
    let text := collapseWs text
    let text := text.filter titleKeyChar
    pyStrip text

/-- `normalize_date_for_key` from scrape_audit.py. -/
def normalize_date_for_key (value : Option Str) : Str :=
  let v := value.getD []
  if v = [] then []
  else
    let raw := pyStrip v
    if isDateSeg (raw.take 10) then raw.take 10
    else if raw.length ≥ 8 ∧ (raw.take 8).all isAsciiDigit then
      (raw.take 4) ++ '-' :: ((raw.drop 4).take 2) ++ '-' :: ((raw.drop 6).take 2)
    else pyLower raw

/-- `make_event_key` from scrape_audit.py. -/
def make_event_key (event_url title start_date : Option Str)
    (base_url : Option Str := none) : Str :=
  match canonicalize_url (event_url.getD []) base_url with
  | some cu => ("url::").toList ++ cu
  | none =>
    ("title::").toList ++ normalize_title_for_key title
      ++ ("::date::").toList ++ normalize_date_for_key start_date

/-- `key_to_display` from scrape_audit.py. -/
def key_to_display (key : Str) : Str :=
  if startsWithStr (("url::").toList) key then key.drop 5 else key

/-- Python `str.title()` for ASCII: an alphabetic character is upper-cased
after a non-alphabetic character, lower-cased after an alphabetic one. -/
def pyTitleGo (prevAlpha : Bool) : Str → Str
  | [] => []
  | c :: rest =>
    if isAsciiAlpha c then
      (if prevAlpha then c.toLower else c.toUpper) :: pyTitleGo true rest
    else c :: pyTitleGo false rest

def pyTitle (s : Str) : Str := pyTitleGo false s

/-- `infer_title_from_url` from scrape_audit.py. -/
def infer_title_from_url (url : Str) : Str :=
  let parts := (splitAll '/' (urlPathOf url)).filter (· ≠ [])
  match parts.getLast? with
  | none => []
  | some tail0 =>
    let tail :=
      if (tail0 ≠ [] ∧ tail0.all isAsciiDigit) ∨ isDateSeg tail0 then
        (if parts.length > 1 then parts.getD (parts.length - 2) [] else tail0)
      else tail0
    if tail = [] then []
    else pyTitle (collapseWs (pyStrip (tail.map (fun c => if c = '-' then ' ' else c))))

/-- `infer_start_date_from_url` from scrape_audit.py. -/
def infer_start_date_from_url (url : Str) : Option Str :=
  (dateUrlGroups (urlPathOf url)).map
    (fun g => g.1 ++ '-' :: g.2.1 ++ '-' :: g.2.2 ++ ("T19:00:00").toList)

/-! ### ICS parsing (scrape_audit.py) -/

/-- Normalize `\r\n` and `\r` to `\n` (the two sequential `replace` calls in
`unfold_ics_lines`, fused into one left-to-right pass). -/
def normNewlines : Str → Str
  | [] => []
  | '\r' :: '\n' :: rest => '\n' :: normNewlines rest
  | '\r' :: rest => '\n' :: normNewlines rest
  | c :: rest => c :: normNewlines rest

/-- The continuation-folding loop of `unfold_ics_lines`: a line starting with
a space or tab is appended (without that character) to the previous collected
line, provided at least one line has been collected. -/
def unfoldLinesGo (acc : List Str) : List Str → List Str
  | [] => acc
  | line :: rest =>
    if (startsWithStr ([' ']) line ∨ startsWithStr (['\t']) line) ∧ acc ≠ [] then
      unfoldLinesGo (acc.dropLast ++ [(acc.getLast?.getD []) ++ line.drop 1]) rest
    else unfoldLinesGo (acc ++ [line]) rest

/-- `unfold_ics_lines` from scrape_audit.py. -/
def unfold_ics_lines (ics : Str) : List Str :=
  unfoldLinesGo [] (splitAll '\n' (normNewlines ics))

/-- `decode_ics_value` from scrape_audit.py: the four sequential two-character
`replace` passes, then `strip`. -/
def decode_ics_value (value : Str) : Str :=
  pyStrip (replacePair '\\' '\\' (['\\'])
    (replacePair '\\' ';' ([';'])
      (replacePair '\\' ',' ([','])
        (replacePair '\\' 'n' ([' ']) value))))

/-- `parse_ics_datetime` from scrape_audit.py (full-match of the bare-date or
date-time patterns). -/
def parse_ics_datetime (raw : Str) : Option Str :=
  let value := pyStrip raw
  if value.length = 8 ∧ value.all isAsciiDigit then
    some ((value.take 4) ++ '-' :: ((value.drop 4).take 2) ++ '-' :: ((value.drop 6).take 2)
      ++ ("T00:00:00").toList)
  else
    let d := value.take 8
    let rest := value.drop 8
    if d.length = 8 ∧ d.all isAsciiDigit ∧ rest.head? = some 'T' then
      let t := rest.drop 1
      let t2 := if t.getLast? = some 'Z' then t.dropLast else t
      let hh := t2.take 2
      let mm := (t2.drop 2).take 2
      let ss := t2.drop 4
      if t2.all isAsciiDigit ∧ (t2.length = 4 ∨ t2.length = 6) then
        some ((d.take 4) ++ '-' :: ((d.drop 4).take 2) ++ '-' :: ((d.drop 6).take 2)
          ++ 'T' :: hh ++ ':' :: mm ++ ':' :: (if ss = [] then ("00").toList else ss))
      else none
    else none

/-- An event as the auditor's parsers produce it (a `{key, eventUrl, title,
startDate}` dict). -/
structure ParsedEvent where
  key : Str
  eventUrl : Option Str
  title : Option Str
  startDate : Option Str

/-- A `VEVENT` block's field dict: association list, first component the
upper-cased field name. -/
abbrev FieldMap := List (Str × Str)

/-- Dict insertion, replace-or-append (`current[field] = value`). -/
def fmSet (d : FieldMap) (k v : Str) : FieldMap :=
  if d.any (fun kv => decide (kv.1 = k)) then
    d.map (fun kv => if kv.1 = k then (k, v) else kv)
  else d ++ [(k, v)]

/-- Dict lookup (`event.get(field)`). -/
def fmGet (d : FieldMap) (k : Str) : Option Str :=
  (d.find? (fun kv => decide (kv.1 = k))).map (·.2)

/-- The `BEGIN:VEVENT`/`END:VEVENT` scanning loop of `parse_ics_events`:
collect one field dict per completed block; a field line splits at the first
colon, parameters after `;` are discarded, the name is upper-cased. -/
def scanBlocks : List Str → Option FieldMap → List FieldMap
  | [], _ => []
  | line :: rest, cur =>
    if line = ("BEGIN:VEVENT").toList then scanBlocks rest (some [])
    else if line = ("END:VEVENT").toList then
      match cur with
      | some b => b :: scanBlocks rest none
      | none => scanBlocks rest none
    else
      match cur, splitFirst ':' line with
      | some b, some (left, value) =>
        scanBlocks rest (some (fmSet b (pyUpper (partitionChar ';' left).1) value))
      | _, _ => scanBlocks rest cur

/-- The emission loop of `parse_ics_events`: skip `STATUS:CANCELLED` blocks,
decode fields, drop non-same-site URLs, skip blocks with no title and no
URL, and deduplicate by computed key (first occurrence wins; `seen` is the
set of keys already emitted). -/
def emitIcsGo (calendar_url domain : Str) : List FieldMap → List Str → List ParsedEvent
  | [], _ => []
  | b :: rest, seen =>
    if pyUpper (pyStrip ((fmGet b (("STATUS").toList)).getD [])) = ("CANCELLED").toList then
      emitIcsGo calendar_url domain rest seen
    else
      let title := decode_ics_value ((fmGet b (("SUMMARY").toList)).getD [])
      let start_date := parse_ics_datetime ((fmGet b (("DTSTART").toList)).getD [])
      let raw_url := decode_ics_value ((fmGet b (("URL").toList)).getD [])
      let event_url :=
        match canonicalize_url raw_url (some calendar_url) with
        | some u => if ¬ is_same_site u domain then none else some u
        | none => none
      if title = [] ∧ event_url = none then emitIcsGo calendar_url domain rest seen
      else
        let key := make_event_key event_url (some title) start_date (some calendar_url)
        if key ∈ seen then emitIcsGo calendar_url domain rest seen
        else ⟨key, event_url, some title, start_date⟩ ::
          emitIcsGo calendar_url domain rest (key :: seen)

/-- `parse_ics_events` from scrape_audit.py. -/
def parse_ics_events (ics_text calendar_url domain : Str) : List ParsedEvent :=
  emitIcsGo calendar_url domain (scanBlocks (unfold_ics_lines ics_text) none) []

/-! ### HTML / Markdown extraction (scrape_audit.py) -/

def isQuote (c : Char) : Bool := c = '\'' ∨ c = '"'

/-- Attempted match of `href\s*=\s*['\"]([^'\"]+)['\"]` (re.I) at the start
of `s`: `some (captured value, rest after the match)`. -/
def tryHrefAt (s : Str) : Option (Str × Str) :=
  if pyLower (s.take 4) = ("href").toList then
    match (s.drop 4).dropWhile pyIsSpace with
    | '=' :: r2 =>
      match r2.dropWhile pyIsSpace with
      | q1 :: r4 =>
        if isQuote q1 then
          let cap := r4.takeWhile (fun c => ¬ isQuote c)
          match r4.drop cap.length with
          | q2 :: r6 => if cap ≠ [] ∧ isQuote q2 then some (cap, r6) else none
          | [] => none
        else none
      | [] => none
    | _ => none
  else none

/-- `re.finditer` scan for the href pattern; every successful match consumes
at least one character, so fuel `s.length` suffices. -/
def scanHrefsGo : Nat → Str → List Str
  | 0, _ => []
  | fuel + 1, s =>
    match s with
    | [] => []
    | _ :: rest =>
      match tryHrefAt s with
      | some (cap, after) => pyStrip cap :: scanHrefsGo fuel after
      | none => scanHrefsGo fuel rest

/-- `extract_html_hrefs` from scrape_audit.py. -/
def extract_html_hrefs (html_text : Str) : List Str :=
  scanHrefsGo html_text.length html_text

/-- Attempted match of `\[([^\]]*)\]\(([^)]+)\)` at the start of `s`:
`some ((link text, url), rest)`. -/
def tryMdAt (s : Str) : Option ((Str × Str) × Str) :=
  match s with
  | '[' :: r1 =>
    let txt := r1.takeWhile (· ≠ ']')
    (match r1.drop txt.length with
     | ']' :: '(' :: r3 =>
       let url := r3.takeWhile (· ≠ ')')
       if url = [] then none
       else
         match r3.drop url.length with
         | ')' :: r4 => some ((txt, url), r4)
         | _ => none
     | _ => none)
  | _ => none

def scanMdGo : Nat → Str → List (Str × Str)
  | 0, _ => []
  | fuel + 1, s =>
    match s with
    | [] => []
    | _ :: rest =>
      match tryMdAt s with
      | some ((txt, url), after) => (pyStrip txt, pyStrip url) :: scanMdGo fuel after
      | none => scanMdGo fuel rest

/-- `extract_markdown_links` from scrape_audit.py (title and url are
stripped, as in the source). -/
def extract_markdown_links (md_text : Str) : List (Str × Str) :=
  scanMdGo md_text.length md_text

/-- Stop class of the bare-URL regex `https?://[^\s)\]>\"']+`. -/
def bareStop (c : Char) : Bool :=
  pyIsSpace c ∨ c = ')' ∨ c = ']' ∨ c = '>' ∨ c = '"' ∨ c = '\''

/-- Attempted match of the bare-URL regex at the start of `s`; the candidate
is the whole match right-stripped of `.,;)`. -/
def tryBareAt (s : Str) : Option (Str × Str) :=
  let n :=
    if startsWithStr (("https://").toList) s then some 8
    else if startsWithStr (("http://").toList) s then some 7
    else none
  match n with
  | none => none
  | some k =>
    let body := (s.drop k).takeWhile (fun c => ¬ bareStop c)
    if body = [] then none
    else some (pyRstripSet (fun c => c = '.' ∨ c = ',' ∨ c = ';' ∨ c = ')')
        (s.take k ++ body), (s.drop k).drop body.length)

def scanBareGo : Nat → Str → List Str
  | 0, _ => []
  | fuel + 1, s =>
    match s with
    | [] => []
    | _ :: rest =>
      match tryBareAt s with
      | some (cand, after) => cand :: scanBareGo fuel after
      | none => scanBareGo fuel rest

/-- `extract_bare_urls` from scrape_audit.py. -/
def extract_bare_urls (text : Str) : List Str :=
  scanBareGo text.length text

/-- The candidate-filtering loop of `parse_html_events`: canonicalize,
same-site filter, path heuristic, title/date inference, key dedup. -/
def parseHtmlGo (calendar_url domain : Str) :
    List (Option Str × Str) → List Str → List ParsedEvent
  | [], _ => []
  | (title, cand) :: rest, seen =>
    match canonicalize_url cand (some calendar_url) with
    | none => parseHtmlGo calendar_url domain rest seen
    | some canonical =>
      if ¬ is_same_site canonical domain then parseHtmlGo calendar_url domain rest seen
      else if ¬ likely_event_url canonical then parseHtmlGo calendar_url domain rest seen
      else
        let inferred_title :=
          match title with
          | some t => t
          | none => infer_title_from_url canonical
        let start_date := infer_start_date_from_url canonical
        let key := make_event_key (some canonical) (some inferred_title) start_date
          (some calendar_url)
        if key ∈ seen then parseHtmlGo calendar_url domain rest seen
        else ⟨key, some canonical, some inferred_title, start_date⟩ ::
          parseHtmlGo calendar_url domain rest (key :: seen)

/-- `parse_html_events` from scrape_audit.py: harvest raw-HTML hrefs, then
Markdown links of the rendered body (empty link text becomes `None`), then
bare URLs of the rendered body, preserving that order. -/
def parse_html_events (calendar_url domain raw_text jina_text : Str) : List ParsedEvent :=
  let candidates :=
    (extract_html_hrefs raw_text).map (fun h => ((none : Option Str), h))
    ++ (extract_markdown_links jina_text).map
        (fun tl => ((if tl.1 = [] then none else some tl.1), tl.2))
    ++ (extract_bare_urls jina_text).map (fun u => ((none : Option Str), u))
  parseHtmlGo calendar_url domain candidates []

/-! ### Cache reading, quality flags, confidence (scrape_audit.py) -/

/-- A cached event record (loose JSON; absent/null fields are `none`). -/
structure CachedEvent where
  eventUrl : Option Str
  title : Option Str
  startDate : Option Str

/-- A venue's cache entry. `events` is `none` when absent or not a list. -/
structure CacheVenue where
  venueName : Option Str
  category : Option Str
  city : Option Str
  events : Option (List CachedEvent)

/-- The venue-events cache: the `venues` JSON object as an association list
(domain key, entry); a `none` entry models a null/empty entry (falsy in
Python). -/
structure Cache where
  venues : List (Str × Option CacheVenue)

/-- A registry venue record (absent/null fields are `none`). -/
structure Venue where
  domain : Option Str
  calendar_url : Option Str
  name : Option Str
  category : Option Str
  city : Option Str

/-- `get_cache_venue` from scrape_audit.py: exact key first, then the first
host-normalized match; `none` plays the role of the empty dict `{}`. -/
def get_cache_venue (cache : Cache) (domain : Str) : Option CacheVenue :=
  match cache.venues.find? (fun kv => decide (kv.1 = domain)) with
  | some kv => kv.2
  | none =>
    let t := normalize_host (some domain)
    match cache.venues.find? (fun kv => decide (normalize_host (some kv.1) = t)) with
    | some kv => kv.2
    | none => none

/-- `parse_cache_events` from scrape_audit.py. -/
def parse_cache_events (cache_events : List CachedEvent) (calendar_url : Str) :
    List ParsedEvent :=
  cache_events.map fun e =>
    ⟨make_event_key e.eventUrl e.title e.startDate (some calendar_url),
     canonicalize_url (e.eventUrl.getD []) (some calendar_url),
     e.title, e.startDate⟩

/-- The loop of `count_duplicate_urls` with its `seen` set. -/
def countDupUrlsGo : List ParsedEvent → List Str → Nat
  | [], _ => 0
  | e :: rest, seen =>
    match e.eventUrl with
    | none => countDupUrlsGo rest seen
    | some u =>
      if u = [] then countDupUrlsGo rest seen
      else if u ∈ seen then 1 + countDupUrlsGo rest seen
      else countDupUrlsGo rest (u :: seen)

/-- `count_duplicate_urls` from scrape_audit.py. -/
def count_duplicate_urls (events : List ParsedEvent) : Nat :=
  countDupUrlsGo events []

/-- `looks_generic_title` from scrape_audit.py (`^...$` patterns under
`pat.match` reduce to equality since the text is stripped). -/
def looks_generic_title (title : Option Str) : Bool :=
  let t := title.getD []
  if t = [] then true
  else
    let text := pyStrip t
    if text.length < 5 then true
    else
      let lowered := pyLower text
      lowered = ("event").toList ∨ lowered = ("tbd").toList
        ∨ lowered = ("tba").toList ∨ lowered = ("coming soon").toList
        ∨ lowered = ("untitled").toList

/-- `is_invalid_date` from scrape_audit.py.  The first pattern is an
unanchored-on-the-right `re.match`, so it reduces to "the first ten
characters form a date"; the second is anchored at both ends. -/
def is_invalid_date (start_date : Option Str) : Bool :=
  match start_date with
  | none => false
  | some s =>
    let raw := pyStrip s
    if raw = [] then true
    else if isDateSeg (raw.take 10) then false
    else
      let d := raw.take 8
      let rest := raw.drop 8
      if d.length = 8 ∧ d.all isAsciiDigit then
        if rest = [] then false
        else if rest.head? = some 'T' then
          let t := rest.drop 1
          let t2 := if t.getLast? = some 'Z' then t.dropLast else t
          if t2.all isAsciiDigit ∧ 4 ≤ t2.length ∧ t2.length ≤ 6 then false else true
        else true
      else true

structure QualityFlags where
  invalid_dates_count : Nat
  duplicate_url_count : Nat
  missing_url_count : Nat
  generic_title_count : Nat
  stale_metadata : Bool

/-- `calculate_quality_flags` from scrape_audit.py. -/
def calculate_quality_flags (cache_events_parsed : List ParsedEvent)
    (cache_raw_events : List CachedEvent) (registry_venue : Venue)
    (cache_venue : Option CacheVenue) : QualityFlags :=
  { missing_url_count :=
      (cache_events_parsed.filter (fun e => ¬ optStrTruthy e.eventUrl)).length
    duplicate_url_count := count_duplicate_urls cache_events_parsed
    invalid_dates_count :=
      (cache_raw_events.filter (fun e => is_invalid_date e.startDate)).length
    generic_title_count :=
      (cache_raw_events.filter (fun e => looks_generic_title e.title)).length
    stale_metadata :=
      match cache_venue with
      | none => false
      | some cv =>
        decide (pyStrip (cv.venueName.getD []) ≠ pyStrip (registry_venue.name.getD [])
          ∨ pyStrip (cv.category.getD []) ≠ pyStrip (registry_venue.category.getD [])
          ∨ pyStrip (cv.city.getD []) ≠ pyStrip (registry_venue.city.getD [])) }

/-- `classify_confidence` from scrape_audit.py, rules in source order. -/
def classify_confidence (source_event_count missing_count : Nat) (fetch_error : Bool)
    (cache_event_count missing_url_count : Nat) : Str :=
  if missing_count = 0 then ("none").toList
  else if source_event_count = 0 then ("unknown").toList
  else if fetch_error then ("low").toList
  else if cache_event_count > 0 ∧ missing_url_count = cache_event_count then
    ("medium").toList
  else ("high").toList

/-! ### Rounding (the `round(x, 4)` in `audit_venue`), on exact rationals -/

/-- Round a rational to the nearest integer, ties to even (Python `round`). -/
def roundHalfEven (q : ℚ) : ℤ :=
  let n := ⌊q⌋
  let r := q - (n : ℚ)
  if r < 1 / 2 then n
  else if 1 / 2 < r then n + 1
  else if Even n then n else n + 1

/-- Python `round(q, 4)` on exact rationals. -/
def round4 (q : ℚ) : ℚ := ((roundHalfEven (q * 10000) : ℤ) : ℚ) / 10000

/-! ### Per-venue audit (scrape_audit.py `audit_venue`) -/

/-- The dict returned by `fetch_source` (fetch results; errors are the
optional error strings of the two `fetch_text` calls). -/
structure FetchResult where
  jina_text : Str
  raw_text : Str
  jina_error : Option Str
  raw_error : Option Str

/-- `fetch_source`'s assembly of the two `fetch_text` results
(`text or ""` in each slot). -/
def fetch_source_combine (jina raw : Option Str × Option Str) : FetchResult :=
  ⟨jina.1.getD [], raw.1.getD [], jina.2, raw.2⟩

/-- `detect_source_type` from scrape_audit.py. -/
def detect_source_type (calendar_url jina_text raw_text : Str) : Str :=
  let normalized_url := pyLower calendar_url
  if containsStr ((".ics").toList) normalized_url
      ∨ containsStr (("ical=1").toList) normalized_url then ("ICS").toList
  else if startsWithStr (("BEGIN:VCALENDAR").toList) (pyUpper (pyStrip jina_text))
      ∨ startsWithStr (("BEGIN:VCALENDAR").toList) (pyUpper (pyStrip raw_text)) then
    ("ICS").toList
  else ("HTML").toList

structure FetchErrors where
  jina_error : Bool
  raw_error : Bool
  jina_error_detail : Option Str
  raw_error_detail : Option Str

structure AuditRow where
  domain : Str
  venue_name_registry : Str
  calendar_url : Str
  source_type : Str
  source_event_count : Nat
  cache_event_count : Nat
  coverage_ratio : Option ℚ
  missing_count : Nat
  extra_count : Nat
  intersection_count : Nat
  missing_examples : List Str
  extra_examples : List Str
  quality_flags : QualityFlags
  fetch_errors : FetchErrors
  confidence : Str

/-- `audit_venue` from scrape_audit.py, with the network `fetch_source`
result supplied as `fetched`.  Python sets become deduplicated lists; the
sorted set differences use `mergeSort` with the code-point order. -/
def audit_venue (venue : Venue) (cache : Cache) (fetched : FetchResult) : AuditRow :=
  let domain := pyStrip (venue.domain.getD [])
  let calendar_url := pyStrip (venue.calendar_url.getD [])
  let source_type := detect_source_type calendar_url fetched.jina_text fetched.raw_text
  let source_events :=
    if source_type = ("ICS").toList then
      parse_ics_events (if fetched.jina_text ≠ [] then fetched.jina_text else fetched.raw_text)
        calendar_url domain
    else parse_html_events calendar_url domain fetched.raw_text fetched.jina_text
  let source_keys := (source_events.map (·.key)).dedup
  let cache_venue := get_cache_venue cache domain
  let cache_raw_events := (cache_venue.bind (·.events)).getD []
  let cache_events := parse_cache_events cache_raw_events calendar_url
  let cache_keys := (cache_events.map (·.key)).dedup
  let missing := List.insertionSort (fun a b => strLe a b = true)
    (source_keys.filter (fun k => decide (k ∉ cache_keys)))
  let extra := List.insertionSort (fun a b => strLe a b = true)
    (cache_keys.filter (fun k => decide (k ∉ source_keys)))
  let intersection_count := (source_keys.filter (fun k => decide (k ∈ cache_keys))).length
  let source_count := source_keys.length
  let coverage_ratio :=
    if source_count > 0 then
      some (round4 ((intersection_count : ℚ) / (source_count : ℚ)))
    else none
  let quality_flags :=
    calculate_quality_flags cache_events cache_raw_events venue cache_venue
  let fetch_error := optStrTruthy fetched.jina_error ∨ optStrTruthy fetched.raw_error
  { domain := domain
    venue_name_registry := venue.name.getD []
    calendar_url := calendar_url
    source_type := source_type
    source_event_count := source_count
    cache_event_count := cache_keys.length
    coverage_ratio := coverage_ratio
    missing_count := missing.length
    extra_count := extra.length
    intersection_count := intersection_count
    missing_examples := (missing.take 20).map key_to_display
    extra_examples := (extra.take 20).map key_to_display
    quality_flags := quality_flags
    fetch_errors :=
      { jina_error := optStrTruthy fetched.jina_error
        raw_error := optStrTruthy fetched.raw_error
        jina_error_detail := fetched.jina_error
        raw_error_detail := fetched.raw_error }
    confidence := classify_confidence source_count missing.length fetch_error
      cache_keys.length quality_flags.missing_url_count }

/-- The degraded row built in `main`'s `except` branch when `audit_venue`
raises, carrying the exception text in both error-detail slots. -/
def degraded_row (venue : Venue) (errText : Str) : AuditRow :=
  { domain := venue.domain.getD []
    venue_name_registry := venue.name.getD []
    calendar_url := venue.calendar_url.getD []
    source_type := ("unknown").toList
    source_event_count := 0
    cache_event_count := 0
    coverage_ratio := none
    missing_count := 0
    extra_count := 0
    intersection_count := 0
    missing_examples := []
    extra_examples := []
    quality_flags :=
      { invalid_dates_count := 0, duplicate_url_count := 0, missing_url_count := 0
        generic_title_count := 0, stale_metadata := false }
    fetch_errors :=
      { jina_error := true, raw_error := true
        jina_error_detail := some errText, raw_error_detail := some errText }
    confidence := ("unknown").toList }

/-- `unique_venues_by_domain_calendar` from scrape_audit.py: the dedup key
and the first-occurrence filter, returning the kept rows and the number of
dropped duplicates. -/
def venueDedupKey (v : Venue) : Str × Str :=
  (normalize_host v.domain, pyRstripSlash (pyStrip (v.calendar_url.getD [])))

def uniqueVenuesGo : List Venue → List (Str × Str) → List Venue × Nat
  | [], _ => ([], 0)
  | v :: rest, seen =>
    if venueDedupKey v ∈ seen then
      let r := uniqueVenuesGo rest seen
      (r.1, r.2 + 1)
    else
      let r := uniqueVenuesGo rest (venueDedupKey v :: seen)
      (v :: r.1, r.2)

def unique_venues_by_domain_calendar (venues : List Venue) : List Venue × Nat :=
  uniqueVenuesGo venues []

/-- The sort key of `main`'s `rows.sort` call: descending missing count,
ascending coverage with `None` as `1.0`, descending source count, domain
ascending — as a lexicographic tuple. -/
def rowKey (r : AuditRow) : Lex (ℤ × Lex (ℚ × Lex (ℤ × List Char))) :=
  toLex (-(r.missing_count : ℤ),
    toLex (r.coverage_ratio.getD 1, toLex (-(r.source_event_count : ℤ), r.domain)))

/-- `main`'s `rows.sort(key=...)`: a stable sort by `rowKey`
(`insertionSort` is stable, like Python's sort). -/
def sortRows (rows : List AuditRow) : List AuditRow :=
  List.insertionSort (fun a b => rowKey a ≤ rowKey b) rows

/-! ### A validity grammar for absolute URLs (used to state C3) -/

/-- DNS-style host characters. -/
def isHostChar (c : Char) : Bool := isAsciiAlnum c ∨ c = '.' ∨ c = '-'

/-- Path characters of a plain URL: printable, no `#`, no `?` (queries and
fragments are allowed in URLs but `canonicalize_url` discards them; the
validity grammar used here covers query-free absolute URLs). -/
def isPathChar (c : Char) : Bool := 32 < c.toNat ∧ c.toNat ≠ 35 ∧ c.toNat ≠ 63

/-- After the host: nothing, or `:digits` then optionally an absolute path,
or an absolute path. -/
def validAfterHost (r : Str) : Bool :=
  if r = [] then true
  else if r.head? = some ':' then
    (let r4 := r.drop 1
     let ds := r4.takeWhile isAsciiDigit
     let r5 := r4.drop ds.length
     decide (ds ≠ []) &&
       (decide (r5 = []) || (decide (r5.head? = some '/') && r5.all isPathChar)))
  else decide (r.head? = some '/') && r.all isPathChar

/-- `//`, a nonempty DNS-style host, then `validAfterHost`. -/
def validHostRest (r : Str) : Bool :=
  decide (r.take 2 = ['/', '/']) &&
    (decide ((r.drop 2).takeWhile isHostChar ≠ []) &&
      validAfterHost ((r.drop 2).drop ((r.drop 2).takeWhile isHostChar).length))

/-- Recognizer for a plain absolute `http(s)` URL:
`scheme://host[:port][/path]` with a DNS-style host. -/
def validAbsUrl (u : Str) : Bool :=
  match splitFirst ':' u with
  | none => false
  | some (sch, rest) =>
    (decide (pyLower sch = ("http").toList) || decide (pyLower sch = ("https").toList))
      && validHostRest rest

/-- The host slice of a URL accepted by `validAbsUrl`. -/
def urlHostPart (u : Str) : Str :=
  match splitFirst ':' u with
  | none => []
  | some (_, rest) => (rest.drop 2).takeWhile isHostChar

/-- The path-normalization step of `canonicalize_url` (collapse slash runs
in `parsed.path or "/"`, then strip trailing slashes unless the path is
exactly `/`), as a standalone function. -/
def canonPath (p : Str) : Str :=
  let p0 := collapseSlashes (if p = [] then ['/'] else p)
  if p0 ≠ ['/'] then pyRstripSlash p0 else p0

/-! ### Helper lemmas -/

theorem aux_length_filter_add_not (l : List Str) (p : Str → Bool) :
    (l.filter p).length + (l.filter (fun x => ! p x)).length = l.length := by
  induction l with
  | nil => rfl
  | cons a t ih => by_cases h : p a <;> simp [List.filter, h] <;> omega

theorem aux_filter_inter_comm (l1 l2 : List Str) (h1 : l1.Nodup) (h2 : l2.Nodup) :
    (l1.filter (fun k => decide (k ∈ l2))).length
      = (l2.filter (fun k => decide (k ∈ l1))).length := by
  have e1 : (l1.filter (fun k => decide (k ∈ l2))).toFinset = l1.toFinset ∩ l2.toFinset := by
    ext x
    simp [List.mem_filter]
  have e2 : (l2.filter (fun k => decide (k ∈ l1))).toFinset = l2.toFinset ∩ l1.toFinset := by
    ext x
    simp [List.mem_filter]
  calc (l1.filter (fun k => decide (k ∈ l2))).length
      = (l1.filter (fun k => decide (k ∈ l2))).toFinset.card :=
        (List.toFinset_card_of_nodup (h1.filter _)).symm
    _ = (l1.toFinset ∩ l2.toFinset).card := by rw [e1]
    _ = (l2.toFinset ∩ l1.toFinset).card := by rw [Finset.inter_comm]
    _ = (l2.filter (fun k => decide (k ∈ l1))).toFinset.card := by rw [e2]
    _ = (l2.filter (fun k => decide (k ∈ l1))).length :=
        List.toFinset_card_of_nodup (h2.filter _)

/-! ### Claim theorems -/

theorem aux_counts (s c : List Str) (hs : s.Nodup) (hc : c.Nodup) :
    (List.insertionSort (fun a b => strLe a b = true)
        (s.filter (fun k => decide (k ∉ c)))).length
        + (s.filter (fun k => decide (k ∈ c))).length = s.length
    ∧ (List.insertionSort (fun a b => strLe a b = true)
        (c.filter (fun k => decide (k ∉ s)))).length
        + (s.filter (fun k => decide (k ∈ c))).length = c.length := by
  constructor
  · rw [(List.perm_insertionSort _ _).length_eq]
    have h := aux_length_filter_add_not s (fun k => decide (k ∈ c))
    simp only [decide_not] at *
    omega
  · rw [(List.perm_insertionSort _ _).length_eq, aux_filter_inter_comm s c hs hc]
    have h := aux_length_filter_add_not c (fun k => decide (k ∈ s))
    simp only [decide_not] at *
    omega

/-- C2.  For every AuditRow produced by auditing a venue — and for every
degraded row built in `main`'s exception handler — the counts satisfy
`missing_count + intersection_count = source_event_count` and
`extra_count + intersection_count = cache_event_count`. -/
theorem c2_row_count_invariant :
    (∀ (v : Venue) (c : Cache) (f : FetchResult),
        (audit_venue v c f).missing_count + (audit_venue v c f).intersection_count
            = (audit_venue v c f).source_event_count
          ∧ (audit_venue v c f).extra_count + (audit_venue v c f).intersection_count
            = (audit_venue v c f).cache_event_count)
      ∧ (∀ (v : Venue) (e : Str),
        (degraded_row v e).missing_count + (degraded_row v e).intersection_count
            = (degraded_row v e).source_event_count
          ∧ (degraded_row v e).extra_count + (degraded_row v e).intersection_count
            = (degraded_row v e).cache_event_count) := by
  refine ⟨fun v c f => ?_, fun v e => ⟨rfl, rfl⟩⟩
  simp only [audit_venue]
  exact ⟨(aux_counts _ _ (List.nodup_dedup _) (List.nodup_dedup _)).1,
    (aux_counts _ _ (List.nodup_dedup _) (List.nodup_dedup _)).2⟩

theorem aux_dedup_length_lt (l : List Str) (h : ¬ l.Nodup) : l.dedup.length < l.length := by
  rcases Nat.lt_or_ge l.dedup.length l.length with h1 | h1
  · exact h1
  · exfalso
    have hsub := List.dedup_sublist l
    have heq : l.dedup = l := hsub.eq_of_length (le_antisymm hsub.length_le h1)
    exact h (heq ▸ List.nodup_dedup l)

/-- C10.  `cache_event_count` is the number of distinct event keys of the
cached events (a set), while the quality-flag counts are computed over the
full undeduplicated cached list; hence when two cached events share a key,
`cache_event_count` is strictly below the raw list length. -/
theorem c10_cache_count_distinct_keys (v : Venue) (c : Cache) (f : FetchResult) :
    let raw := ((get_cache_venue c (pyStrip (v.domain.getD []))).bind
      (fun cv => cv.events)).getD []
    let parsed := parse_cache_events raw (pyStrip (v.calendar_url.getD []))
    (audit_venue v c f).cache_event_count = ((parsed.map (fun e => e.key)).dedup).length
      ∧ (audit_venue v c f).quality_flags.missing_url_count
        = (parsed.filter (fun e => ¬ optStrTruthy e.eventUrl)).length
      ∧ (audit_venue v c f).quality_flags.invalid_dates_count
        = (raw.filter (fun e => is_invalid_date e.startDate)).length
      ∧ (audit_venue v c f).quality_flags.generic_title_count
        = (raw.filter (fun e => looks_generic_title e.title)).length
      ∧ (¬ (parsed.map (fun e => e.key)).Nodup →
          (audit_venue v c f).cache_event_count < raw.length) := by
  intro raw parsed
  refine ⟨rfl, rfl, rfl, rfl, fun h => ?_⟩
  have h1 := aux_dedup_length_lt ((parsed.map (fun e => e.key))) h
  have h2 : ((parsed.map (fun e => e.key))).length = raw.length := by
    show ((parse_cache_events raw _).map (fun e => e.key)).length = raw.length
    simp [parse_cache_events]
  have h3 : (audit_venue v c f).cache_event_count
      = ((parsed.map (fun e => e.key)).dedup).length := rfl
  omega

/-- Witness for C10 at a cache with two events sharing one title-based key. -/
theorem c10_cache_count_distinct_keys_witness :
    (¬ ((parse_cache_events
        [⟨none, some (("Same Show").toList), none⟩,
         ⟨none, some (("Same Show").toList), none⟩]
        (("https://venue.org/cal").toList)).map (fun e => e.key)).Nodup)
    ∧ (audit_venue
        ⟨some (("venue.org").toList), some (("https://venue.org/cal").toList),
          none, none, none⟩
        ⟨[((("venue.org").toList), some ⟨none, none, none,
          some [⟨none, some (("Same Show").toList), none⟩,
                ⟨none, some (("Same Show").toList), none⟩]⟩)]⟩
        ⟨[], [], none, none⟩).cache_event_count < 2 := by
  constructor
  · decide
  · exact (c10_cache_count_distinct_keys
      ⟨some (("venue.org").toList), some (("https://venue.org/cal").toList),
        none, none, none⟩
      ⟨[((("venue.org").toList), some ⟨none, none, none,
        some [⟨none, some (("Same Show").toList), none⟩,
              ⟨none, some (("Same Show").toList), none⟩]⟩)]⟩
      ⟨[], [], none, none⟩).2.2.2.2 (by decide)

theorem aux_audit_empty_texts (v : Venue) (c : Cache) (je re_ : Option Str) :
    (audit_venue v c ⟨[], [], je, re_⟩).source_event_count = 0
      ∧ (audit_venue v c ⟨[], [], je, re_⟩).missing_count = 0
      ∧ (audit_venue v c ⟨[], [], je, re_⟩).coverage_ratio = none
      ∧ (audit_venue v c ⟨[], [], je, re_⟩).confidence = ("none").toList := by
  have hsrc : (if detect_source_type (pyStrip (v.calendar_url.getD [])) [] []
        = ("ICS").toList then
      parse_ics_events (if ([] : Str) ≠ [] then [] else [])
        (pyStrip (v.calendar_url.getD [])) (pyStrip (v.domain.getD []))
    else parse_html_events (pyStrip (v.calendar_url.getD []))
      (pyStrip (v.domain.getD [])) [] []) = [] := by
    split <;> rfl
  simp only [audit_venue, hsrc]
  refine ⟨rfl, rfl, rfl, rfl⟩

/-- Counterexample to C1: a venue whose both fetches fail produces the
claimed counts and error flags, but its confidence is `"none"`, not
`"unknown"` — the `missing_count == 0` rule of `classify_confidence` fires
first, since no source events means no missing events. -/
theorem c1_both_fetch_fail_cex :
    (audit_venue
        ⟨some (("venue.org").toList), some (("https://venue.org/events.ics").toList),
          none, none, none⟩
        ⟨[]⟩
        (fetch_source_combine (none, some (("HTTP 504").toList))
          (none, some (("HTTP 504").toList)))).source_event_count = 0
    ∧ (audit_venue
        ⟨some (("venue.org").toList), some (("https://venue.org/events.ics").toList),
          none, none, none⟩
        ⟨[]⟩
        (fetch_source_combine (none, some (("HTTP 504").toList))
          (none, some (("HTTP 504").toList)))).coverage_ratio = none
    ∧ (audit_venue
        ⟨some (("venue.org").toList), some (("https://venue.org/events.ics").toList),
          none, none, none⟩
        ⟨[]⟩
        (fetch_source_combine (none, some (("HTTP 504").toList))
          (none, some (("HTTP 504").toList)))).fetch_errors.jina_error = true
    ∧ (audit_venue
        ⟨some (("venue.org").toList), some (("https://venue.org/events.ics").toList),
          none, none, none⟩
        ⟨[]⟩
        (fetch_source_combine (none, some (("HTTP 504").toList))
          (none, some (("HTTP 504").toList)))).fetch_errors.raw_error = true
    ∧ (audit_venue
        ⟨some (("venue.org").toList), some (("https://venue.org/events.ics").toList),
          none, none, none⟩
        ⟨[]⟩
        (fetch_source_combine (none, some (("HTTP 504").toList))
          (none, some (("HTTP 504").toList)))).confidence ≠ ("unknown").toList := by
  refine ⟨by decide, by decide, by decide, by decide, by decide⟩

/-- C1 (amended).  For a venue whose both fetches fail (both `fetch_text`
results carry a nonempty error string and no body), the produced row has
`source_event_count = 0`, `coverage_ratio = none`, both fetch-error flags
set — and `confidence = "none"`: rule 1 of `classify_confidence`
(`missing_count == 0`) fires before the `source_event_count == 0` rule,
because an empty source key set leaves nothing missing. -/
theorem c1_both_fetch_fail_amended (v : Venue) (c : Cache) (e1 e2 : Str)
    (h1 : e1 ≠ []) (h2 : e2 ≠ []) :
    (audit_venue v c (fetch_source_combine (none, some e1)
        (none, some e2))).source_event_count = 0
    ∧ (audit_venue v c (fetch_source_combine (none, some e1)
        (none, some e2))).coverage_ratio = none
    ∧ (audit_venue v c (fetch_source_combine (none, some e1)
        (none, some e2))).fetch_errors.jina_error = true
    ∧ (audit_venue v c (fetch_source_combine (none, some e1)
        (none, some e2))).fetch_errors.raw_error = true
    ∧ (audit_venue v c (fetch_source_combine (none, some e1)
        (none, some e2))).confidence = ("none").toList := by
  have h := aux_audit_empty_texts v c (some e1) (some e2)
  refine ⟨h.1, h.2.2.1, ?_, ?_, h.2.2.2⟩
  · show optStrTruthy (some e1) = true
    simpa [optStrTruthy] using h1
  · show optStrTruthy (some e2) = true
    simpa [optStrTruthy] using h2

/-- Witness for C1 (amended) at a concrete venue/cache and error strings. -/
theorem c1_both_fetch_fail_amended_witness :
    ((("HTTP 504").toList : Str) ≠ []
    ∧ (audit_venue
        ⟨some (("venue.org").toList), some (("https://venue.org/events.ics").toList),
          none, none, none⟩
        ⟨[]⟩
        (fetch_source_combine (none, some (("HTTP 504").toList))
          (none, some (("HTTP 504").toList)))).confidence = ("none").toList) := by
  refine ⟨by decide, ?_⟩
  exact (c1_both_fetch_fail_amended
    ⟨some (("venue.org").toList), some (("https://venue.org/events.ics").toList),
      none, none, none⟩ ⟨[]⟩ (("HTTP 504").toList) (("HTTP 504").toList)
    (by decide) (by decide)).2.2.2.2

/-- C5.  A `VEVENT` block whose `STATUS` value (parameters stripped from the
field name by the scanner, value stripped and upper-cased) is `CANCELLED`
contributes nothing to the ICS parser's output: deleting such a block from
the scanned block list leaves the emission pass unchanged (for any `seen`
state, so in particular for the whole parse), and `parse_ics_events` is the
emission pass over the scanned blocks. -/
theorem c5_ics_cancelled_excluded :
    (∀ (cal dom : Str) (l1 l2 : List FieldMap) (b : FieldMap) (seen : List Str),
        pyUpper (pyStrip ((fmGet b (("STATUS").toList)).getD [])) = ("CANCELLED").toList →
        emitIcsGo cal dom (l1 ++ b :: l2) seen = emitIcsGo cal dom (l1 ++ l2) seen)
      ∧ (∀ (text cal dom : Str),
        parse_ics_events text cal dom
          = emitIcsGo cal dom (scanBlocks (unfold_ics_lines text) none) []) := by
  refine ⟨fun cal dom l1 l2 b seen hb => ?_, fun text cal dom => rfl⟩
  induction l1 generalizing seen with
  | nil =>
    simp only [List.nil_append]
    rw [emitIcsGo, if_pos hb]
  | cons a t ih =>
    simp only [List.cons_append, emitIcsGo, List.append_eq, ih]

/-- Witness for C5: a concrete cancelled block (with other fields present)
between two kept blocks changes nothing. -/
theorem c5_ics_cancelled_excluded_witness :
    (pyUpper (pyStrip ((fmGet
        [((("STATUS").toList), ((" cancelled ").toList)),
         ((("SUMMARY").toList), (("Gone Show").toList)),
         ((("DTSTART").toList), (("20250901T190000").toList))]
        (("STATUS").toList)).getD [])) = ("CANCELLED").toList)
    ∧ emitIcsGo (("https://venue.org/cal.ics").toList) (("venue.org").toList)
        ([[((("SUMMARY").toList), (("Kept One").toList))]]
          ++ [((("STATUS").toList), ((" cancelled ").toList)),
              ((("SUMMARY").toList), (("Gone Show").toList)),
              ((("DTSTART").toList), (("20250901T190000").toList))]
          :: [[((("SUMMARY").toList), (("Kept Two").toList))]]) []
      = emitIcsGo (("https://venue.org/cal.ics").toList) (("venue.org").toList)
        ([[((("SUMMARY").toList), (("Kept One").toList))]]
          ++ [[((("SUMMARY").toList), (("Kept Two").toList))]]) [] := by
  refine ⟨by decide, ?_⟩
  exact c5_ics_cancelled_excluded.1 _ _ _ _ _ _ (by decide)

/-- C6.  In `likely_event_url` the exclusion patterns are tested first: any
URL whose (lower-cased) path matches an exclusion pattern is rejected, even
when an inclusion pattern also matches; in particular
`https://venue.org/events/category/jazz` is rejected despite containing
`/events/`. -/
theorem c6_exclusion_precedence :
    (∀ url : Str, likelyExcluded (pyLower (urlPathOf url)) = true →
        likely_event_url url = false)
      ∧ likely_event_url (("https://venue.org/events/category/jazz").toList) = false := by
  constructor
  · intro url h
    unfold likely_event_url
    simp only [h, if_true]
  · decide

/-- Witness for C6 at the spec's example URL. -/
theorem c6_exclusion_precedence_witness :
    (likelyExcluded (pyLower (urlPathOf
        (("https://venue.org/events/category/jazz").toList))) = true)
    ∧ likely_event_url (("https://venue.org/events/category/jazz").toList) = false := by
  refine ⟨by decide, ?_⟩
  exact c6_exclusion_precedence.1 _ (by decide)

/-- C7.  Key stability: when the event URL canonicalizes (under the given
base URL) to some canonical URL, `make_event_key` returns `"url::" + that
URL`, and the key does not depend on the title or start date supplied
alongside. -/
theorem c7_key_stability (event_url t1 d1 t2 d2 base : Option Str) (cu : Str)
    (h : canonicalize_url (event_url.getD []) base = some cu) :
    make_event_key event_url t1 d1 base = ("url::").toList ++ cu
      ∧ make_event_key event_url t1 d1 base = make_event_key event_url t2 d2 base := by
  unfold make_event_key
  rw [h]
  exact ⟨rfl, rfl⟩

/-- Witness for C7: the spec's example event URL with two different
title/date pairs. -/
theorem c7_key_stability_witness :
    (canonicalize_url
        (((some (("https://venue.org/events/jazz-night-2025-09-01").toList)) :
          Option Str).getD []) none
      = some (("https://venue.org/events/jazz-night-2025-09-01").toList))
    ∧ make_event_key (some (("https://venue.org/events/jazz-night-2025-09-01").toList))
        (some (("Jazz Night").toList)) (some (("2025-09-01").toList)) none
      = ("url::").toList ++ (("https://venue.org/events/jazz-night-2025-09-01").toList)
    ∧ make_event_key (some (("https://venue.org/events/jazz-night-2025-09-01").toList))
        (some (("Jazz Night").toList)) (some (("2025-09-01").toList)) none
      = make_event_key (some (("https://venue.org/events/jazz-night-2025-09-01").toList))
        (some (("").toList)) none none := by
  refine ⟨by decide, ?_, ?_⟩
  · exact (c7_key_stability
      (some (("https://venue.org/events/jazz-night-2025-09-01").toList))
      (some (("Jazz Night").toList)) (some (("2025-09-01").toList))
      (some (("").toList)) none none
      (("https://venue.org/events/jazz-night-2025-09-01").toList) (by decide)).1
  · exact (c7_key_stability
      (some (("https://venue.org/events/jazz-night-2025-09-01").toList))
      (some (("Jazz Night").toList)) (some (("2025-09-01").toList))
      (some (("").toList)) none none
      (("https://venue.org/events/jazz-night-2025-09-01").toList) (by decide)).2

/-- C8.  Registry dedup: two registry rows with the same dedup key — host-
normalized domain and calendar URL with trailing slashes stripped — collapse
to the first row with one counted duplicate. -/
theorem c8_registry_dedup (v1 v2 : Venue) (h : venueDedupKey v1 = venueDedupKey v2) :
    unique_venues_by_domain_calendar [v1, v2] = ([v1], 1) := by
  unfold unique_venues_by_domain_calendar
  simp [uniqueVenuesGo, h]

/-- Witness for C8: two rows that differ by a trailing slash on the calendar
URL (and a `www.` prefix on the domain). -/
theorem c8_registry_dedup_witness :
    (venueDedupKey ⟨some (("www.venue.org").toList),
        some (("https://venue.org/events").toList), none, none, none⟩
      = venueDedupKey ⟨some (("venue.org").toList),
        some (("https://venue.org/events/").toList), none, none, none⟩)
    ∧ unique_venues_by_domain_calendar
        [⟨some (("www.venue.org").toList),
          some (("https://venue.org/events").toList), none, none, none⟩,
         ⟨some (("venue.org").toList),
          some (("https://venue.org/events/").toList), none, none, none⟩]
      = ([⟨some (("www.venue.org").toList),
          some (("https://venue.org/events").toList), none, none, none⟩], 1) := by
  refine ⟨by decide, ?_⟩
  exact c8_registry_dedup _ _ (by decide)

/-- C9.  The report's row list is sorted: every adjacent pair of
`sortRows`'s output satisfies, lexicographically, descending
`missing_count`, then ascending `coverage_ratio` with null read as `1`
(best), then descending `source_event_count`, then `domain` ascending (by
code point). -/
theorem c9_report_rows_sorted (rows : List AuditRow) :
    List.Chain' (fun a b =>
      b.missing_count < a.missing_count
      ∨ (b.missing_count = a.missing_count
        ∧ (a.coverage_ratio.getD 1 < b.coverage_ratio.getD 1
          ∨ (a.coverage_ratio.getD 1 = b.coverage_ratio.getD 1
            ∧ (b.source_event_count < a.source_event_count
              ∨ (b.source_event_count = a.source_event_count
                ∧ a.domain ≤ b.domain)))))) (sortRows rows) := by
  haveI : IsTotal AuditRow (fun a b => rowKey a ≤ rowKey b) := ⟨fun a b => le_total _ _⟩
  haveI : IsTrans AuditRow (fun a b => rowKey a ≤ rowKey b) :=
    ⟨fun _ _ _ h1 h2 => le_trans h1 h2⟩
  have hs := List.sorted_insertionSort (fun a b => rowKey a ≤ rowKey b) rows
  refine (List.Pairwise.chain' hs).imp ?_
  intro a b h
  unfold rowKey at h
  rw [Prod.Lex.le_iff] at h
  rcases h with h | ⟨h1, h⟩
  · left
    simpa using h
  · right
    refine ⟨by simpa using h1.symm, ?_⟩
    rw [Prod.Lex.le_iff] at h
    rcases h with h | ⟨h2, h⟩
    · left
      simpa using h
    · right
      refine ⟨by simpa using h2, ?_⟩
      rw [Prod.Lex.le_iff] at h
      rcases h with h | ⟨h3, h⟩
      · left
        simpa using h
      · right
        exact ⟨by simpa using h3.symm, h⟩

theorem aux_rhe_abs (q : ℚ) : |((roundHalfEven q : ℤ) : ℚ) - q| ≤ 1/2 := by
  unfold roundHalfEven
  dsimp only
  have h0 : ((⌊q⌋ : ℤ) : ℚ) ≤ q := Int.floor_le q
  have h1 : q < ((⌊q⌋ : ℤ) : ℚ) + 1 := Int.lt_floor_add_one q
  split_ifs with hlt hgt hev
  · rw [abs_le]; constructor <;> linarith
  · push_cast; rw [abs_le]; constructor <;> linarith
  · rw [abs_le]; constructor <;> linarith
  · push_cast; rw [abs_le]; constructor <;> linarith

theorem aux_rhe_nonneg (q : ℚ) (h : 0 ≤ q) : 0 ≤ roundHalfEven q := by
  unfold roundHalfEven
  dsimp only
  have h0 : 0 ≤ ⌊q⌋ := Int.floor_nonneg.mpr h
  split_ifs <;> omega

theorem aux_rhe_le (q : ℚ) (N : ℤ) (h : q ≤ (N : ℚ)) : roundHalfEven q ≤ N := by
  unfold roundHalfEven
  dsimp only
  have h0 : ⌊q⌋ ≤ N := by
    have := Int.floor_le_floor (α := ℚ) h
    simpa using this
  have hfl : ((⌊q⌋ : ℤ) : ℚ) ≤ q := Int.floor_le q
  split_ifs with hlt hgt hev
  · exact h0
  · have hx : ((⌊q⌋ : ℤ) : ℚ) < (N : ℚ) := by linarith
    have : ⌊q⌋ < N := by exact_mod_cast hx
    omega
  · exact h0
  · have hge : ((⌊q⌋ : ℤ) : ℚ) + 1/2 ≤ q := by
      have : ¬(q - ((⌊q⌋ : ℤ) : ℚ) < 1/2) := hlt
      linarith
    have hx : ((⌊q⌋ : ℤ) : ℚ) < (N : ℚ) := by linarith
    have : ⌊q⌋ < N := by exact_mod_cast hx
    omega

theorem aux_coverage_bounds (i s : Nat) (hle : i ≤ s) (hpos : 0 < s) :
    0 ≤ round4 ((i : ℚ) / (s : ℚ)) ∧ round4 ((i : ℚ) / (s : ℚ)) ≤ 1
      ∧ |round4 ((i : ℚ) / (s : ℚ)) - (i : ℚ) / (s : ℚ)| ≤ 1 / 20000 := by
  have hs : (0 : ℚ) < (s : ℚ) := by exact_mod_cast hpos
  have h0 : 0 ≤ (i : ℚ) / (s : ℚ) := by positivity
  have h1 : (i : ℚ) / (s : ℚ) ≤ 1 := by
    rw [div_le_one hs]
    exact_mod_cast hle
  refine ⟨?_, ?_, ?_⟩
  · unfold round4
    have hn := aux_rhe_nonneg ((i : ℚ) / (s : ℚ) * 10000) (by positivity)
    have : (0 : ℚ) ≤ ((roundHalfEven ((i : ℚ) / (s : ℚ) * 10000) : ℤ) : ℚ) := by
      exact_mod_cast hn
    positivity
  · unfold round4
    have h2 : (i : ℚ) / (s : ℚ) * 10000 ≤ ((10000 : ℤ) : ℚ) := by push_cast; nlinarith
    have h3 := aux_rhe_le _ _ h2
    rw [div_le_one (by norm_num)]
    exact_mod_cast h3
  · unfold round4
    have h3 := aux_rhe_abs ((i : ℚ) / (s : ℚ) * 10000)
    have key : ((roundHalfEven ((i : ℚ) / (s : ℚ) * 10000) : ℤ) : ℚ) / 10000
        - (i : ℚ) / (s : ℚ)
        = (((roundHalfEven ((i : ℚ) / (s : ℚ) * 10000) : ℤ) : ℚ)
            - (i : ℚ) / (s : ℚ) * 10000) / 10000 := by ring
    rw [key, abs_div]
    rw [abs_of_pos (by norm_num : (0:ℚ) < 10000)]
    linarith

theorem aux_cov_main (i s : Nat) (hle : i ≤ s) :
    ((if 0 < s then some (round4 ((i : ℚ) / (s : ℚ))) else none) = none ↔ s = 0)
      ∧ ∀ q, (if 0 < s then some (round4 ((i : ℚ) / (s : ℚ))) else none) = some q →
        q = round4 ((i : ℚ) / (s : ℚ)) ∧ 0 ≤ q ∧ q ≤ 1
          ∧ |q - (i : ℚ) / (s : ℚ)| ≤ 1 / 20000 := by
  constructor
  · split
    next h => exact iff_of_false (by simp) (by omega)
    next h => exact iff_of_true rfl (by omega)
  · intro q hq
    split at hq
    next hpos =>
      have he := (Option.some.inj hq).symm
      have hb := aux_coverage_bounds i s hle hpos
      exact ⟨he, he ▸ hb.1, he ▸ hb.2.1, he ▸ hb.2.2⟩
    next => exact absurd hq (by simp)

/-- C4 (amended).  `coverage_ratio` is null exactly when
`source_event_count = 0`; otherwise it equals `intersection_count /
source_event_count` rounded half-to-even to four decimal places — hence
within `1/20000` of the exact ratio, and always inside `[0, 1]`.  (The
claim's exact equality with the unrounded ratio fails, e.g. at 1/3.) -/
theorem c4_coverage_ratio (v : Venue) (c : Cache) (f : FetchResult) :
    ((audit_venue v c f).coverage_ratio = none
        ↔ (audit_venue v c f).source_event_count = 0)
      ∧ (∀ q, (audit_venue v c f).coverage_ratio = some q →
        q = round4 (((audit_venue v c f).intersection_count : ℚ)
            / ((audit_venue v c f).source_event_count : ℚ))
          ∧ 0 ≤ q ∧ q ≤ 1
          ∧ |q - ((audit_venue v c f).intersection_count : ℚ)
            / ((audit_venue v c f).source_event_count : ℚ)| ≤ 1 / 20000) := by
  have hle : (audit_venue v c f).intersection_count
      ≤ (audit_venue v c f).source_event_count := by
    simp only [audit_venue]
    exact List.length_filter_le _ _
  simp only [audit_venue] at hle ⊢
  exact ⟨(aux_cov_main _ _ hle).1, (aux_cov_main _ _ hle).2⟩

set_option maxRecDepth 40000 in
/-- Witness for C4 (amended) at a one-event ICS source and empty cache. -/
theorem c4_coverage_ratio_witness :
    (audit_venue
        ⟨some (("venue.org").toList), some (("https://venue.org/cal.ics").toList),
          none, none, none⟩ ⟨[]⟩
        ⟨("BEGIN:VCALENDAR\nBEGIN:VEVENT\nSUMMARY:Solo Show\nEND:VEVENT\nEND:VCALENDAR").toList,
          [], none, none⟩).source_event_count = 1
    ∧ (0 : ℚ) ≤ round4 (((audit_venue
        ⟨some (("venue.org").toList), some (("https://venue.org/cal.ics").toList),
          none, none, none⟩ ⟨[]⟩
        ⟨("BEGIN:VCALENDAR\nBEGIN:VEVENT\nSUMMARY:Solo Show\nEND:VEVENT\nEND:VCALENDAR").toList,
          [], none, none⟩).intersection_count : ℚ)
        / ((audit_venue
        ⟨some (("venue.org").toList), some (("https://venue.org/cal.ics").toList),
          none, none, none⟩ ⟨[]⟩
        ⟨("BEGIN:VCALENDAR\nBEGIN:VEVENT\nSUMMARY:Solo Show\nEND:VEVENT\nEND:VCALENDAR").toList,
          [], none, none⟩).source_event_count : ℚ)) := by
  constructor
  · decide
  · exact ((c4_coverage_ratio
      ⟨some (("venue.org").toList), some (("https://venue.org/cal.ics").toList),
          none, none, none⟩ ⟨[]⟩
        ⟨("BEGIN:VCALENDAR\nBEGIN:VEVENT\nSUMMARY:Solo Show\nEND:VEVENT\nEND:VCALENDAR").toList,
          [], none, none⟩).2
      (round4 (((audit_venue
        ⟨some (("venue.org").toList), some (("https://venue.org/cal.ics").toList),
          none, none, none⟩ ⟨[]⟩
        ⟨("BEGIN:VCALENDAR\nBEGIN:VEVENT\nSUMMARY:Solo Show\nEND:VEVENT\nEND:VCALENDAR").toList,
          [], none, none⟩).intersection_count : ℚ)
        / ((audit_venue
        ⟨some (("venue.org").toList), some (("https://venue.org/cal.ics").toList),
          none, none, none⟩ ⟨[]⟩
        ⟨("BEGIN:VCALENDAR\nBEGIN:VEVENT\nSUMMARY:Solo Show\nEND:VEVENT\nEND:VCALENDAR").toList,
          [], none, none⟩).source_event_count : ℚ))) rfl).2.1

set_option maxRecDepth 80000 in
/-- Counterexample to C4 as stated: with three source events and one cached
match the produced `coverage_ratio` is the rounded `0.3333`, which differs
from the exact ratio `1/3`. -/
theorem c4_exact_ratio_cex :
    (audit_venue
        ⟨some (("venue.org").toList), some (("https://venue.org/cal.ics").toList),
          none, none, none⟩
        ⟨[((("venue.org").toList), some ⟨none, none, none,
          some [⟨none, some (("Alpha Concert").toList), none⟩]⟩)]⟩
        ⟨("BEGIN:VCALENDAR\nBEGIN:VEVENT\nSUMMARY:Alpha Concert\nEND:VEVENT\nBEGIN:VEVENT\nSUMMARY:Beta Concert\nEND:VEVENT\nBEGIN:VEVENT\nSUMMARY:Gamma Concert\nEND:VEVENT\nEND:VCALENDAR").toList,
          [], none, none⟩).intersection_count = 1
    ∧ (audit_venue
        ⟨some (("venue.org").toList), some (("https://venue.org/cal.ics").toList),
          none, none, none⟩
        ⟨[((("venue.org").toList), some ⟨none, none, none,
          some [⟨none, some (("Alpha Concert").toList), none⟩]⟩)]⟩
        ⟨("BEGIN:VCALENDAR\nBEGIN:VEVENT\nSUMMARY:Alpha Concert\nEND:VEVENT\nBEGIN:VEVENT\nSUMMARY:Beta Concert\nEND:VEVENT\nBEGIN:VEVENT\nSUMMARY:Gamma Concert\nEND:VEVENT\nEND:VCALENDAR").toList,
          [], none, none⟩).source_event_count = 3
    ∧ (audit_venue
        ⟨some (("venue.org").toList), some (("https://venue.org/cal.ics").toList),
          none, none, none⟩
        ⟨[((("venue.org").toList), some ⟨none, none, none,
          some [⟨none, some (("Alpha Concert").toList), none⟩]⟩)]⟩
        ⟨("BEGIN:VCALENDAR\nBEGIN:VEVENT\nSUMMARY:Alpha Concert\nEND:VEVENT\nBEGIN:VEVENT\nSUMMARY:Beta Concert\nEND:VEVENT\nBEGIN:VEVENT\nSUMMARY:Gamma Concert\nEND:VEVENT\nEND:VCALENDAR").toList,
          [], none, none⟩).coverage_ratio = some ((3333 : ℚ) / 10000)
    ∧ ((3333 : ℚ) / 10000) ≠ (1 : ℚ) / 3 := by
  have h1 : (audit_venue
        ⟨some (("venue.org").toList), some (("https://venue.org/cal.ics").toList),
          none, none, none⟩
        ⟨[((("venue.org").toList), some ⟨none, none, none,
          some [⟨none, some (("Alpha Concert").toList), none⟩]⟩)]⟩
        ⟨("BEGIN:VCALENDAR\nBEGIN:VEVENT\nSUMMARY:Alpha Concert\nEND:VEVENT\nBEGIN:VEVENT\nSUMMARY:Beta Concert\nEND:VEVENT\nBEGIN:VEVENT\nSUMMARY:Gamma Concert\nEND:VEVENT\nEND:VCALENDAR").toList,
          [], none, none⟩).intersection_count = 1 := by decide
  have h2 : (audit_venue
        ⟨some (("venue.org").toList), some (("https://venue.org/cal.ics").toList),
          none, none, none⟩
        ⟨[((("venue.org").toList), some ⟨none, none, none,
          some [⟨none, some (("Alpha Concert").toList), none⟩]⟩)]⟩
        ⟨("BEGIN:VCALENDAR\nBEGIN:VEVENT\nSUMMARY:Alpha Concert\nEND:VEVENT\nBEGIN:VEVENT\nSUMMARY:Beta Concert\nEND:VEVENT\nBEGIN:VEVENT\nSUMMARY:Gamma Concert\nEND:VEVENT\nEND:VCALENDAR").toList,
          [], none, none⟩).source_event_count = 3 := by decide
  have h0 : (audit_venue
        ⟨some (("venue.org").toList), some (("https://venue.org/cal.ics").toList),
          none, none, none⟩
        ⟨[((("venue.org").toList), some ⟨none, none, none,
          some [⟨none, some (("Alpha Concert").toList), none⟩]⟩)]⟩
        ⟨("BEGIN:VCALENDAR\nBEGIN:VEVENT\nSUMMARY:Alpha Concert\nEND:VEVENT\nBEGIN:VEVENT\nSUMMARY:Beta Concert\nEND:VEVENT\nBEGIN:VEVENT\nSUMMARY:Gamma Concert\nEND:VEVENT\nEND:VCALENDAR").toList,
          [], none, none⟩).coverage_ratio = some (round4 (((audit_venue
        ⟨some (("venue.org").toList), some (("https://venue.org/cal.ics").toList),
          none, none, none⟩
        ⟨[((("venue.org").toList), some ⟨none, none, none,
          some [⟨none, some (("Alpha Concert").toList), none⟩]⟩)]⟩
        ⟨("BEGIN:VCALENDAR\nBEGIN:VEVENT\nSUMMARY:Alpha Concert\nEND:VEVENT\nBEGIN:VEVENT\nSUMMARY:Beta Concert\nEND:VEVENT\nBEGIN:VEVENT\nSUMMARY:Gamma Concert\nEND:VEVENT\nEND:VCALENDAR").toList,
          [], none, none⟩).intersection_count : ℚ)
        / ((audit_venue
        ⟨some (("venue.org").toList), some (("https://venue.org/cal.ics").toList),
          none, none, none⟩
        ⟨[((("venue.org").toList), some ⟨none, none, none,
          some [⟨none, some (("Alpha Concert").toList), none⟩]⟩)]⟩
        ⟨("BEGIN:VCALENDAR\nBEGIN:VEVENT\nSUMMARY:Alpha Concert\nEND:VEVENT\nBEGIN:VEVENT\nSUMMARY:Beta Concert\nEND:VEVENT\nBEGIN:VEVENT\nSUMMARY:Gamma Concert\nEND:VEVENT\nEND:VCALENDAR").toList,
          [], none, none⟩).source_event_count : ℚ))) := rfl
  rw [h1, h2] at h0
  have hfl : ⌊((1 : ℕ) : ℚ) / ((3 : ℕ) : ℚ) * 10000⌋ = 3333 := by
    rw [Int.floor_eq_iff]
    norm_num
  have hr : round4 (((1 : ℕ) : ℚ) / ((3 : ℕ) : ℚ)) = (3333 : ℚ) / 10000 := by
    unfold round4 roundHalfEven
    dsimp only
    rw [hfl]
    rw [if_pos (by push_cast; norm_num)]
    norm_num
  refine ⟨h1, h2, ?_, by norm_num⟩
  rw [h0, hr]

/-! ### C3 helper layer: characters -/

theorem aux3_char_eq_of_toNat {c d : Char} (h : c.toNat = d.toNat) : c = d := by
  apply Char.ext
  apply UInt32.ext
  exact h

theorem aux3_char_eq_iff_toNat {c d : Char} : c = d ↔ c.toNat = d.toNat :=
  ⟨fun h => h ▸ rfl, aux3_char_eq_of_toNat⟩

theorem aux3_char_le_iff_toNat {c d : Char} : c ≤ d ↔ c.toNat ≤ d.toNat := Iff.rfl

theorem aux3_char_lt_iff_toNat {c d : Char} : c < d ↔ c.toNat < d.toNat := Iff.rfl

theorem aux3_ofNat_toNat {n : Nat} (h : n < 55296) : (Char.ofNat n).toNat = n := by
  unfold Char.ofNat
  rw [dif_pos (Or.inl h)]
  rfl

theorem aux3_toLower_fix {c : Char} (h : ¬ (65 ≤ c.toNat ∧ c.toNat ≤ 90)) :
    c.toLower = c := by
  unfold Char.toLower
  exact if_neg h

theorem aux3_toLower_shift {c : Char} (h : 65 ≤ c.toNat ∧ c.toNat ≤ 90) :
    (c.toLower).toNat = c.toNat + 32 := by
  unfold Char.toLower
  rw [if_pos h]
  exact aux3_ofNat_toNat (by omega)

theorem aux3_toLower_inv {c x : Char} (h : c.toLower = x)
    (hx : 97 ≤ x.toNat ∧ x.toNat ≤ 122) :
    c.toNat = x.toNat ∨ c.toNat = x.toNat - 32 := by
  by_cases hc : 65 ≤ c.toNat ∧ c.toNat ≤ 90
  · right
    have h2 := aux3_toLower_shift hc
    rw [h] at h2
    omega
  · left
    rw [aux3_toLower_fix hc] at h
    rw [h]

theorem aux3_isAsciiDigit_iff {c : Char} :
    isAsciiDigit c = true ↔ 48 ≤ c.toNat ∧ c.toNat ≤ 57 := by
  simp [isAsciiDigit, aux3_char_le_iff_toNat]

theorem aux3_isAsciiAlpha_iff {c : Char} :
    isAsciiAlpha c = true
      ↔ (97 ≤ c.toNat ∧ c.toNat ≤ 122) ∨ (65 ≤ c.toNat ∧ c.toNat ≤ 90) := by
  simp [isAsciiAlpha, aux3_char_le_iff_toNat]

theorem aux3_isHostChar_iff {c : Char} :
    isHostChar c = true ↔ ((48 ≤ c.toNat ∧ c.toNat ≤ 57) ∨ (97 ≤ c.toNat ∧ c.toNat ≤ 122)
      ∨ (65 ≤ c.toNat ∧ c.toNat ≤ 90) ∨ c.toNat = 46 ∨ c.toNat = 45) := by
  simp [isHostChar, isAsciiAlnum, isAsciiAlpha, isAsciiDigit, aux3_char_le_iff_toNat,
    aux3_char_eq_iff_toNat]
  omega

theorem aux3_isPathChar_iff {c : Char} :
    isPathChar c = true ↔ 32 < c.toNat ∧ c.toNat ≠ 35 ∧ c.toNat ≠ 63 := by
  simp [isPathChar]

theorem aux3_pyIsSpace_iff {c : Char} :
    pyIsSpace c = true ↔ (c.toNat = 32 ∨ c.toNat = 9 ∨ c.toNat = 10 ∨ c.toNat = 13
      ∨ c.toNat = 11 ∨ c.toNat = 12) := by
  simp [pyIsSpace, aux3_char_eq_iff_toNat]

theorem aux3_schemeChars_iff {c : Char} :
    schemeChars c = true ↔ ((48 ≤ c.toNat ∧ c.toNat ≤ 57) ∨ (97 ≤ c.toNat ∧ c.toNat ≤ 122)
      ∨ (65 ≤ c.toNat ∧ c.toNat ≤ 90) ∨ c.toNat = 43 ∨ c.toNat = 45 ∨ c.toNat = 46) := by
  simp [schemeChars, isAsciiAlnum, isAsciiAlpha, isAsciiDigit, aux3_char_le_iff_toNat,
    aux3_char_eq_iff_toNat]
  omega

theorem aux3_netlocStop_iff {c : Char} :
    netlocStop c = true ↔ (c.toNat = 47 ∨ c.toNat = 63 ∨ c.toNat = 35) := by
  simp [netlocStop, aux3_char_eq_iff_toNat]

/-! ### C3 helper layer: list splitting -/

theorem aux3_dropWhile_all {p : Char → Bool} {l : Str} (h : ∀ c ∈ l, p c = false) :
    l.dropWhile p = l := by
  cases l with
  | nil => rfl
  | cons a t =>
    rw [List.dropWhile_cons_of_neg]
    simp [h a (by simp)]

theorem aux3_strip_eq_self {s : Str} (h : ∀ c ∈ s, pyIsSpace c = false) :
    pyStrip s = s := by
  unfold pyStrip pyLstrip pyRstrip
  rw [aux3_dropWhile_all h]
  rw [aux3_dropWhile_all (by intro c hc; exact h c (by simpa using hc))]
  exact List.reverse_reverse s

theorem aux3_lower_fix {s : Str} (h : ∀ c ∈ s, c.toLower = c) : pyLower s = s := by
  unfold pyLower
  induction s with
  | nil => rfl
  | cons a t ih =>
    simp only [List.map_cons]
    rw [h a (by simp), ih (fun c hc => h c (by simp [hc]))]

theorem aux3_splitFirst_not_mem {c : Char} {l : Str} (h : c ∉ l) :
    splitFirst c l = none := by
  induction l with
  | nil => rfl
  | cons a t ih =>
    rw [splitFirst, if_neg (by rintro rfl; exact h (by simp))]
    rw [ih (fun hc => h (by simp [hc]))]
    rfl

theorem aux3_splitFirst_append {c : Char} {a b : Str} (h : c ∉ a) :
    splitFirst c (a ++ c :: b) = some (a, b) := by
  induction a with
  | nil => simp [splitFirst]
  | cons x t ih =>
    rw [List.cons_append, splitFirst, if_neg (by rintro rfl; exact h (by simp))]
    rw [ih (fun hc => h (by simp [hc]))]
    rfl

theorem aux3_splitFirst_inv {c : Char} {l a b : Str} (h : splitFirst c l = some (a, b)) :
    l = a ++ c :: b ∧ c ∉ a := by
  induction l generalizing a with
  | nil => simp [splitFirst] at h
  | cons x t ih =>
    rw [splitFirst] at h
    by_cases hx : x = c
    · rw [if_pos hx] at h
      obtain ⟨rfl, rfl⟩ := by simpa using h
      simp [hx]
    · rw [if_neg hx] at h
      match ha : splitFirst c t with
      | none => rw [ha] at h; simp at h
      | some (a', b') =>
        rw [ha] at h
        obtain ⟨rfl, rfl⟩ := by simpa using h
        obtain ⟨h1, h2⟩ := ih ha
        refine ⟨by simp [h1], ?_⟩
        simp only [List.mem_cons, not_or]
        exact ⟨fun he => hx he.symm, h2⟩

theorem aux3_partition_not_mem {c : Char} {l : Str} (h : c ∉ l) :
    partitionChar c l = (l, false, []) := by
  induction l with
  | nil => rfl
  | cons a t ih =>
    rw [partitionChar, if_neg (by rintro rfl; exact h (by simp))]
    rw [ih (fun hc => h (by simp [hc]))]

theorem aux3_partition_append {c : Char} {a b : Str} (h : c ∉ a) :
    partitionChar c (a ++ c :: b) = (a, true, b) := by
  induction a with
  | nil => simp [partitionChar]
  | cons x t ih =>
    rw [List.cons_append, partitionChar, if_neg (by rintro rfl; exact h (by simp))]
    rw [ih (fun hc => h (by simp [hc]))]

theorem aux3_rpartition_not_mem {c : Char} {l : Str} (h : c ∉ l) :
    rpartitionChar c l = ([], false, l) := by
  unfold rpartitionChar
  rw [aux3_partition_not_mem (by simpa using h)]
  rfl

theorem aux3_takeWhile_all {p : Char → Bool} {l : Str} (h : ∀ c ∈ l, p c = true) :
    l.takeWhile p = l := by
  induction l with
  | nil => rfl
  | cons a t ih =>
    rw [List.takeWhile_cons_of_pos (h a (by simp))]
    rw [ih (fun c hc => h c (by simp [hc]))]

theorem aux3_span_append {p : Char → Bool} {a b : Str}
    (ha : ∀ c ∈ a, p c = true) (hb : ∀ x ∈ b.head?, p x = false) :
    (a ++ b).takeWhile p = a ∧ (a ++ b).dropWhile p = b := by
  induction a with
  | nil =>
    simp only [List.nil_append]
    cases b with
    | nil => simp
    | cons x t =>
      have hx := hb x (by simp)
      rw [List.takeWhile_cons_of_neg (by simp [hx]), List.dropWhile_cons_of_neg (by simp [hx])]
      simp
  | cons y t ih =>
    have hy := ha y (by simp)
    obtain ⟨ih1, ih2⟩ := ih (fun c hc => ha c (by simp [hc]))
    rw [List.cons_append, List.takeWhile_cons_of_pos hy, List.dropWhile_cons_of_pos hy]
    exact ⟨by rw [ih1], by rw [ih2]⟩

theorem aux3_dropWhile_head {p : Char → Bool} {l : Str} :
    ∀ x ∈ (l.dropWhile p).head?, p x = false := by
  induction l with
  | nil => simp
  | cons a t ih =>
    by_cases h : p a
    · rw [List.dropWhile_cons_of_pos h]
      exact ih
    · rw [List.dropWhile_cons_of_neg h]
      intro x hx
      simp only [List.head?_cons, Option.mem_some_iff] at hx
      subst hx
      simpa using h

/-! ### C3 helper layer: decimal rendering round-trip -/

theorem aux3_natToStrGo_spec (n : Nat) : ∀ f acc, n < f →
    natToStrGo f n acc = natToStr n ++ acc := by
  induction n using Nat.strong_induction_on with
  | _ n ih =>
    intro f acc hf
    match f with
    | 0 => omega
    | f' + 1 =>
      by_cases h10 : n < 10
      · rw [natToStrGo, if_pos h10]
        rw [natToStr, natToStrGo, if_pos h10]
        rfl
      · have hdiv : n / 10 < n := Nat.div_lt_self (by omega) (by omega)
        rw [natToStrGo, if_neg h10]
        rw [natToStr, natToStrGo, if_neg h10]
        rw [ih (n / 10) hdiv f' (digitChar (n % 10) :: acc) (by omega)]
        rw [ih (n / 10) hdiv n [digitChar (n % 10)] (by omega)]
        simp

theorem aux3_natToStr_step {n : Nat} (h : ¬ n < 10) :
    natToStr n = natToStr (n / 10) ++ [digitChar (n % 10)] := by
  have hdiv : n / 10 < n := Nat.div_lt_self (by omega) (by omega)
  rw [natToStr, natToStrGo, if_neg h]
  exact aux3_natToStrGo_spec (n / 10) n [digitChar (n % 10)] (by omega)

theorem aux3_natToStr_small {n : Nat} (h : n < 10) : natToStr n = [digitChar n] := by
  rw [natToStr, natToStrGo, if_pos h]

theorem aux3_digitChar_toNat {n : Nat} (h : n < 10) : (digitChar n).toNat = 48 + n := by
  unfold digitChar
  exact aux3_ofNat_toNat (by omega)

theorem aux3_natToStr_digits (n : Nat) :
    ∀ c ∈ natToStr n, 48 ≤ c.toNat ∧ c.toNat ≤ 57 := by
  induction n using Nat.strong_induction_on with
  | _ n ih =>
    by_cases h10 : n < 10
    · rw [aux3_natToStr_small h10]
      intro c hc
      simp only [List.mem_singleton] at hc
      subst hc
      rw [aux3_digitChar_toNat h10]
      omega
    · rw [aux3_natToStr_step h10]
      intro c hc
      rcases List.mem_append.mp hc with hc | hc
      · exact ih (n / 10) (Nat.div_lt_self (by omega) (by omega)) c hc
      · simp only [List.mem_singleton] at hc
        subst hc
        rw [aux3_digitChar_toNat (Nat.mod_lt n (by omega))]
        have := Nat.mod_lt n (show 0 < 10 by omega)
        omega

theorem aux3_natToStr_ne_nil (n : Nat) : natToStr n ≠ [] := by
  by_cases h10 : n < 10
  · rw [aux3_natToStr_small h10]
    simp
  · rw [aux3_natToStr_step h10]
    simp

theorem aux3_digitsToNat_natToStr (n : Nat) : digitsToNat (natToStr n) = n := by
  induction n using Nat.strong_induction_on with
  | _ n ih =>
    by_cases h10 : n < 10
    · rw [aux3_natToStr_small h10]
      unfold digitsToNat
      simp only [List.foldl_cons, List.foldl_nil]
      rw [aux3_digitChar_toNat h10]
      omega
    · rw [aux3_natToStr_step h10]
      unfold digitsToNat
      rw [List.foldl_append]
      have hrec := ih (n / 10) (Nat.div_lt_self (by omega) (by omega))
      unfold digitsToNat at hrec
      rw [hrec]
      simp only [List.foldl_cons, List.foldl_nil]
      rw [aux3_digitChar_toNat (Nat.mod_lt n (by omega))]
      omega

/-! ### C3 helper layer: slash collapsing and trailing-slash stripping -/

theorem aux3_collapse_true_head (l : Str) :
    ∀ x ∈ (collapseSlashesGo true l).head?, x ≠ '/' := by
  induction l with
  | nil => simp [collapseSlashesGo]
  | cons c cs ih =>
    by_cases hc : c = '/'
    · rw [collapseSlashesGo, if_pos hc, if_pos rfl]
      exact ih
    · rw [collapseSlashesGo, if_neg hc]
      intro x hx
      simp only [List.head?_cons, Option.mem_some_iff] at hx
      subst hx
      exact hc

theorem aux3_collapse_chain (prev : Bool) (l : Str) :
    List.Chain' (fun a b => ¬(a = '/' ∧ b = '/')) (collapseSlashesGo prev l) := by
  induction l generalizing prev with
  | nil => simp [collapseSlashesGo]
  | cons c cs ih =>
    by_cases hc : c = '/'
    · cases prev with
      | true =>
        rw [collapseSlashesGo, if_pos hc, if_pos rfl]
        exact ih true
      | false =>
        rw [collapseSlashesGo, if_pos hc, if_neg (by simp)]
        rw [List.chain'_cons']
        refine ⟨fun y hy h2 => ?_, ih true⟩
        exact aux3_collapse_true_head cs y hy h2.2
    · rw [collapseSlashesGo, if_neg hc]
      rw [List.chain'_cons']
      refine ⟨fun y hy h2 => hc h2.1, ih false⟩

theorem aux3_collapse_mem {prev : Bool} {l : Str} :
    ∀ c ∈ collapseSlashesGo prev l, c ∈ l := by
  induction l generalizing prev with
  | nil => simp [collapseSlashesGo]
  | cons x cs ih =>
    intro c hc
    by_cases hx : x = '/'
    · cases prev with
      | true =>
        rw [collapseSlashesGo, if_pos hx, if_pos rfl] at hc
        exact List.mem_cons_of_mem x (ih c hc)
      | false =>
        rw [collapseSlashesGo, if_pos hx, if_neg (by simp)] at hc
        rcases List.mem_cons.mp hc with h | h
        · simp [h, hx]
        · exact List.mem_cons_of_mem x (ih c h)
    · rw [collapseSlashesGo, if_neg hx] at hc
      rcases List.mem_cons.mp hc with h | h
      · simp [h]
      · exact List.mem_cons_of_mem x (ih c h)

theorem aux3_collapse_head (l : Str) :
    (collapseSlashesGo false l).head? = l.head? := by
  cases l with
  | nil => rfl
  | cons c cs =>
    by_cases hc : c = '/'
    · rw [collapseSlashesGo, if_pos hc, if_neg (by simp)]
      simp [hc]
    · rw [collapseSlashesGo, if_neg hc]
      simp

theorem aux3_collapse_id : ∀ (l : Str) (prev : Bool),
    List.Chain' (fun a b => ¬(a = '/' ∧ b = '/')) l →
    (prev = true → ∀ x ∈ l.head?, x ≠ '/') →
    collapseSlashesGo prev l = l := by
  intro l
  induction l with
  | nil => intro prev _ _; rfl
  | cons c cs ih =>
    intro prev hch hhd
    rw [List.chain'_cons'] at hch
    by_cases hc : c = '/'
    · cases prev with
      | true => exact absurd hc (hhd rfl c (by simp))
      | false =>
        rw [collapseSlashesGo, if_pos hc, if_neg (by simp)]
        rw [ih true hch.2 (fun _ y hy hy2 => hch.1 y hy ⟨hc, hy2⟩)]
        rw [hc]
    · rw [collapseSlashesGo, if_neg hc]
      rw [ih false hch.2 (by simp)]

theorem aux3_rstrip_prefix (p : Char → Bool) (s : Str) : pyRstripSet p s <+: s := by
  unfold pyRstripSet
  rw [← List.reverse_reverse s]
  rw [ List.reverse_prefix]
  rw [List.reverse_reverse]
  exact List.dropWhile_suffix p

theorem aux3_rstrip_id {p : Char → Bool} {s : Str}
    (h : ∀ x ∈ s.getLast?, p x = false) : pyRstripSet p s = s := by
  unfold pyRstripSet
  cases hr : s.reverse with
  | nil =>
    rw [List.dropWhile_nil]
    simpa using congrArg List.reverse hr
  | cons a t =>
    have ha : p a = false := by
      apply h
      rw [← List.head?_reverse, hr]
      rfl
    rw [List.dropWhile_cons_of_neg (by simp [ha])]
    rw [← hr, List.reverse_reverse]

theorem aux3_rstrip_last {p : Char → Bool} {s : Str} :
    ∀ x ∈ (pyRstripSet p s).getLast?, p x = false := by
  intro x hx
  unfold pyRstripSet at hx
  rw [List.getLast?_reverse] at hx
  exact aux3_dropWhile_head x hx

theorem aux3_canonPath_id {p : Str}
    (hh : p.head? = some '/')
    (hch : List.Chain' (fun a b => ¬(a = '/' ∧ b = '/')) p)
    (hl : p = ['/'] ∨ p.getLast? ≠ some '/') :
    canonPath p = p := by
  unfold canonPath
  have hne : p ≠ [] := by rintro rfl; simp at hh
  rw [if_neg hne]
  show (if collapseSlashes p ≠ ['/'] then pyRstripSlash (collapseSlashes p)
    else collapseSlashes p) = p
  rw [show collapseSlashes p = p from aux3_collapse_id p false hch (by simp)]
  rcases hl with hl | hl
  · rw [hl]
    simp [pyRstripSlash]
  · by_cases hp : p = ['/']
    · rw [hp]
      simp [pyRstripSlash]
    · rw [if_pos hp]
      unfold pyRstripSlash
      apply aux3_rstrip_id
      intro x hx
      simp only [decide_eq_false_iff_not]
      rintro rfl
      exact hl hx

theorem aux3_canonPath_props {p : Str}
    (hp : p = [] ∨ p.head? = some '/')
    (hc : ∀ c ∈ p, 32 < c.toNat ∧ c.toNat ≠ 35 ∧ c.toNat ≠ 63) :
    (canonPath p).head? = some '/'
      ∧ (∀ c ∈ canonPath p, 32 < c.toNat ∧ c.toNat ≠ 35 ∧ c.toNat ≠ 63)
      ∧ List.Chain' (fun a b => ¬(a = '/' ∧ b = '/')) (canonPath p)
      ∧ (canonPath p = ['/'] ∨ (canonPath p).getLast? ≠ some '/') := by
  have hslash : (32 < ('/').toNat ∧ ('/').toNat ≠ 35 ∧ ('/').toNat ≠ 63) := by decide
  unfold canonPath
  set q := if p = [] then ['/'] else p with hq
  have hqh : q.head? = some '/' := by
    rcases hp with hp | hp
    · rw [hq, if_pos hp]
      rfl
    · rw [hq, if_neg (by rintro rfl; simp at hp)]
      exact hp
  have hqc : ∀ c ∈ q, 32 < c.toNat ∧ c.toNat ≠ 35 ∧ c.toNat ≠ 63 := by
    rw [hq]
    split
    · intro c hcm
      simp only [List.mem_singleton] at hcm
      subst hcm
      exact hslash
    · exact hc
  have hp0h : (collapseSlashes q).head? = some '/' := by
    rw [collapseSlashes, aux3_collapse_head, hqh]
  have hp0c : ∀ c ∈ collapseSlashes q, 32 < c.toNat ∧ c.toNat ≠ 35 ∧ c.toNat ≠ 63 :=
    fun c hcm => hqc c (aux3_collapse_mem c hcm)
  have hp0ch : List.Chain' (fun a b => ¬(a = '/' ∧ b = '/')) (collapseSlashes q) :=
    aux3_collapse_chain false q
  by_cases hone : collapseSlashes q = ['/']
  · rw [if_neg (by simpa using hone)]
    rw [hone]
    refine ⟨rfl, ?_, by simp, Or.inl rfl⟩
    intro c hcm
    simp only [List.mem_singleton] at hcm
    subst hcm
    exact hslash
  · rw [if_pos (by simpa using hone)]
    have hpre : pyRstripSlash (collapseSlashes q) <+: collapseSlashes q :=
      aux3_rstrip_prefix _ _
    have hrne : pyRstripSlash (collapseSlashes q) ≠ [] := by
      intro hnil
      apply hone
      unfold pyRstripSlash pyRstripSet at hnil
      have hrev : (collapseSlashes q).reverse.dropWhile (· = '/') = [] := by
        have := congrArg List.reverse hnil
        simpa using this
      have hall : ∀ x ∈ (collapseSlashes q).reverse, x = '/' := by
        intro x hx
        have h2 := List.dropWhile_eq_nil_iff.mp hrev x hx
        simpa using h2
      have hall2 : ∀ x ∈ collapseSlashes q, x = '/' := by
        intro x hx
        exact hall x (by simpa using hx)
      match hcq : collapseSlashes q, hp0h, hp0ch with
      | c :: cs, hh, hch =>
        have hcz : c = '/' := by
          rw [hcq] at hall2
          exact hall2 c (by simp)
        cases cs with
        | nil => rw [hcz]
        | cons c2 cs2 =>
          exfalso
          have hc2 : c2 = '/' := by
            rw [hcq] at hall2
            exact hall2 c2 (by simp)
          rw [List.chain'_cons'] at hch
          exact hch.1 c2 (by simp) ⟨hcz, hc2⟩
    refine ⟨?_, ?_, ?_, ?_⟩
    · obtain ⟨t, ht⟩ := hpre
      match hr : pyRstripSlash (collapseSlashes q), hrne with
      | r0 :: rs, _ =>
        rw [hr] at ht
        rw [← ht] at hp0h
        simpa using hp0h
    · intro c hcm
      exact hp0c c (hpre.subset hcm)
    · exact hp0ch.prefix hpre
    · right
      intro hlast
      have h2 := aux3_rstrip_last _ hlast
      simp at h2

theorem aux3_uint32_le32 {c : Char} : (c.val ≤ (0x20 : UInt32)) ↔ c.toNat ≤ 32 := Iff.rfl

theorem aux3_uint32_lt128 {c : Char} : (c.val < (128 : UInt32)) ↔ c.toNat < 128 := Iff.rfl

theorem aux3_urlsplit_canonical (sch nl path : Str)
    (hs1 : sch ≠ [])
    (hs2 : ∀ x ∈ sch.head?, x.toNat < 128 ∧ isAsciiAlpha x = true)
    (hs3 : ∀ c ∈ sch, schemeChars c = true)
    (hnl : ∀ c ∈ nl, c.toNat ≠ 47 ∧ c.toNat ≠ 63 ∧ c.toNat ≠ 35 ∧ c.toNat ≠ 91
      ∧ c.toNat ≠ 93 ∧ c.toNat ≠ 9 ∧ c.toNat ≠ 13 ∧ c.toNat ≠ 10)
    (hpath : path = [] ∨ path.head? = some '/')
    (hpathc : ∀ c ∈ path, c.toNat ≠ 35 ∧ c.toNat ≠ 63 ∧ c.toNat ≠ 9 ∧ c.toNat ≠ 13
      ∧ c.toNat ≠ 10) :
    pyUrlsplit (sch ++ ':' :: '/' :: '/' :: (nl ++ path)) []
      = some ⟨pyLower sch, nl, path, [], []⟩ := by
  obtain ⟨s0, st, rfl⟩ : ∃ s0 st, sch = s0 :: st := by
    cases sch with
    | nil => exact absurd rfl hs1
    | cons a t => exact ⟨a, t, rfl⟩
  have hs0 := hs2 s0 (by simp)
  have hs0n : 65 ≤ s0.toNat := by
    rcases (aux3_isAsciiAlpha_iff.mp hs0.2) with h | h <;> omega
  have hw : whatwgLstrip ((s0 :: st) ++ ':' :: '/' :: '/' :: (nl ++ path))
      = (s0 :: st) ++ ':' :: '/' :: '/' :: (nl ++ path) := by
    unfold whatwgLstrip
    rw [List.cons_append, List.dropWhile_cons_of_neg]
    simp only [decide_eq_true_eq]
    rw [aux3_uint32_le32]
    omega
  have hschNotCrLf : ∀ c ∈ (s0 :: st), ¬(c = '\t' ∨ c = '\r' ∨ c = '\n') := by
    intro c hcm hor
    have hsc := aux3_schemeChars_iff.mp (hs3 c hcm)
    rcases hor with h | h | h <;> (subst h; revert hsc; decide)
  have hrm : removeTabCrLf ((s0 :: st) ++ ':' :: '/' :: '/' :: (nl ++ path))
      = (s0 :: st) ++ ':' :: '/' :: '/' :: (nl ++ path) := by
    unfold removeTabCrLf
    rw [List.filter_eq_self]
    intro a ham
    simp only [List.mem_append, List.mem_cons] at ham
    apply decide_eq_true
    rcases ham with h | h | h | h | h
    · exact hschNotCrLf a (by rcases h with h | h <;> simp [h])
    · intro hor
      subst h
      rcases hor with h | h | h <;> exact absurd h (by decide)
    · intro hor
      subst h
      rcases hor with h | h | h <;> exact absurd h (by decide)
    · intro hor
      subst h
      rcases hor with h | h | h <;> exact absurd h (by decide)
    · rcases h with h2 | h2
      · have := hnl a h2
        intro hor
        rcases hor with h | h | h <;> (subst h; revert this; decide)
      · have := hpathc a h2
        intro hor
        rcases hor with h | h | h <;> (subst h; revert this; decide)
  have hcolon : (':' : Char) ∉ (s0 :: st) := by
    intro hm
    have := aux3_schemeChars_iff.mp (hs3 ':' hm)
    revert this
    decide
  have hsp : splitFirst ':' ((s0 :: st) ++ ':' :: '/' :: '/' :: (nl ++ path))
      = some ((s0 :: st), '/' :: '/' :: (nl ++ path)) :=
    aux3_splitFirst_append hcolon
  have htake : ((nl ++ path).takeWhile (fun c => ¬ netlocStop c)) = nl := by
    refine (aux3_span_append ?_ ?_).1
    · intro c hcm
      have h := hnl c hcm
      apply decide_eq_true
      rw [aux3_netlocStop_iff]
      omega
    · intro x hx
      rcases hpath with hp | hp
      · subst hp
        simp at hx
      · rw [hp] at hx
        simp only [Option.mem_some_iff] at hx
        subst hx
        decide
  have hdrop : ((nl ++ path).dropWhile (fun c => ¬ netlocStop c)) = path := by
    refine (aux3_span_append ?_ ?_).2
    · intro c hcm
      have h := hnl c hcm
      apply decide_eq_true
      rw [aux3_netlocStop_iff]
      omega
    · intro x hx
      rcases hpath with hp | hp
      · subst hp
        simp at hx
      · rw [hp] at hx
        simp only [Option.mem_some_iff] at hx
        subst hx
        decide
  have hok2 : (decide (s0.val < 128) && isAsciiAlpha s0) = true := by
    rw [Bool.and_eq_true]
    exact ⟨decide_eq_true (aux3_uint32_lt128.mpr hs0.1), hs0.2⟩
  have hok3 : st.all schemeChars = true := by
    rw [List.all_eq_true]
    intro c hcm
    exact hs3 c (by simp [hcm])
  have hbr1 : ('[' : Char) ∉ nl := by
    intro hm
    have := (hnl '[' hm).2.2.2.1
    revert this
    decide
  have hbr2 : (']' : Char) ∉ nl := by
    intro hm
    have := (hnl ']' hm).2.2.2.2.1
    revert this
    decide
  have hfrag : splitFirst '#' path = none := by
    apply aux3_splitFirst_not_mem
    intro hm
    have := (hpathc '#' hm).1
    revert this
    decide
  have hquery : splitFirst '?' path = none := by
    apply aux3_splitFirst_not_mem
    intro hm
    have := (hpathc '?' hm).2.1
    revert this
    decide
  unfold pyUrlsplit
  rw [hw, hrm]
  simp only [hsp, List.head?_cons, hok2, hok3, ne_eq, reduceCtorEq, not_false_eq_true,
    true_and, and_true, if_true, List.drop_succ_cons, List.drop_zero,
    List.take_succ_cons, List.take_zero, htake, hdrop, hfrag, hquery, decide_eq_true_eq]
  rw [if_neg]
  simp [hbr1, hbr2]

/-! ### C3 helper layer: scheme characters, prefixes, lower-case idempotence -/

theorem aux3_lower_mem_bound {sch w : Str} (hw : pyLower sch = w)
    (hwc : ∀ d ∈ w, 97 ≤ d.toNat ∧ d.toNat ≤ 122) :
    ∀ c ∈ sch, 97 ≤ c.toLower.toNat ∧ c.toLower.toNat ≤ 122 := by
  intro c hc
  refine hwc c.toLower ?_
  rw [← hw]
  exact List.mem_map_of_mem Char.toLower hc

theorem aux3_schemeish {c : Char} (h : 97 ≤ c.toLower.toNat ∧ c.toLower.toNat ≤ 122) :
    isAsciiAlpha c = true ∧ schemeChars c = true ∧ c.toNat < 128 ∧ pyIsSpace c = false
      ∧ 65 ≤ c.toNat ∧ c.toNat ≤ 122 := by
  by_cases hc : 65 ≤ c.toNat ∧ c.toNat ≤ 90
  · have h2 := aux3_toLower_shift hc
    refine ⟨aux3_isAsciiAlpha_iff.mpr (by omega), aux3_schemeChars_iff.mpr (by omega),
      by omega, ?_, by omega, by omega⟩
    exact Bool.eq_false_iff.mpr (fun hsp => by rw [aux3_pyIsSpace_iff] at hsp; omega)
  · have h2 := aux3_toLower_fix hc
    rw [h2] at h
    refine ⟨aux3_isAsciiAlpha_iff.mpr (by omega), aux3_schemeChars_iff.mpr (by omega),
      by omega, ?_, by omega, by omega⟩
    exact Bool.eq_false_iff.mpr (fun hsp => by rw [aux3_pyIsSpace_iff] at hsp; omega)

theorem aux3_startsWith_head_ne {p0 : Char} {ps s : Str} {c : Char}
    (hs : s.head? = some c) (hne : c ≠ p0) :
    startsWithStr (p0 :: ps) s = false := by
  cases s with
  | nil => simp at hs
  | cons a t =>
    simp only [List.head?_cons, Option.some_inj] at hs
    subst hs
    unfold startsWithStr
    simp only [List.isPrefixOf, Bool.and_eq_false_iff]
    left
    exact beq_eq_false_iff_ne.mpr (fun he => hne he.symm)

theorem aux3_toLower_idem (c : Char) : c.toLower.toLower = c.toLower := by
  by_cases hc : 65 ≤ c.toNat ∧ c.toNat ≤ 90
  · have h2 := aux3_toLower_shift hc
    exact aux3_toLower_fix (by omega)
  · rw [aux3_toLower_fix hc]
    exact aux3_toLower_fix hc

theorem aux3_lower_idem (s : Str) : pyLower (pyLower s) = pyLower s := by
  unfold pyLower
  rw [List.map_map]
  exact List.map_congr_left (fun a _ => aux3_toLower_idem a)

theorem aux3_prefix_drop {p q l : Str} (h1 : startsWithStr p l = true)
    (h2 : startsWithStr q (l.drop p.length) = true) :
    startsWithStr (p ++ q) l = true := by
  unfold startsWithStr at *
  rw [List.isPrefixOf_iff_prefix] at *
  obtain ⟨t, ht⟩ := h2
  have hl : l = p ++ l.drop p.length := by
    obtain ⟨t2, ht2⟩ := h1
    conv_lhs => rw [← ht2]
    rw [← ht2]
    simp
  exact ⟨t, by rw [List.append_assoc, ht, ← hl]⟩

/-! ### C3 helper layer: hostinfo, hostname, port -/

theorem aux3_hostChar_not {c : Char} (h : isHostChar c = true) :
    c.toNat ≠ 64 ∧ c.toNat ≠ 91 ∧ c.toNat ≠ 58 ∧ c.toNat ≠ 37 ∧ c.toNat ≠ 47
      ∧ c.toNat ≠ 63 ∧ c.toNat ≠ 35 ∧ c.toNat ≠ 93 ∧ c.toNat ≠ 9 ∧ c.toNat ≠ 13
      ∧ c.toNat ≠ 10 ∧ pyIsSpace c = false ∧ 45 ≤ c.toNat ∧ c.toNat ≤ 122 := by
  have h2 := aux3_isHostChar_iff.mp h
  refine ⟨by omega, by omega, by omega, by omega, by omega, by omega, by omega, by omega,
    by omega, by omega, by omega, ?_, by omega, by omega⟩
  exact Bool.eq_false_iff.mpr (fun hsp => by rw [aux3_pyIsSpace_iff] at hsp; omega)

theorem aux3_digit_not {c : Char} (h : isAsciiDigit c = true) :
    c.toNat ≠ 64 ∧ c.toNat ≠ 91 ∧ c.toNat ≠ 58 ∧ c.toNat ≠ 37 ∧ c.toNat ≠ 47
      ∧ c.toNat ≠ 63 ∧ c.toNat ≠ 35 ∧ c.toNat ≠ 93 ∧ c.toNat ≠ 9 ∧ c.toNat ≠ 13
      ∧ c.toNat ≠ 10 ∧ pyIsSpace c = false := by
  have h2 := aux3_isAsciiDigit_iff.mp h
  refine ⟨by omega, by omega, by omega, by omega, by omega, by omega, by omega, by omega,
    by omega, by omega, by omega, ?_⟩
  exact Bool.eq_false_iff.mpr (fun hsp => by rw [aux3_pyIsSpace_iff] at hsp; omega)

theorem aux3_hostinfo_noport {l : Str} (h : ∀ c ∈ l, isHostChar c = true) :
    hostinfo l = (l, none) := by
  have hat : ('@' : Char) ∉ l := fun hm => by
    have := (aux3_hostChar_not (h _ hm)).1
    revert this
    decide
  have hbr : ('[' : Char) ∉ l := fun hm => by
    have := (aux3_hostChar_not (h _ hm)).2.1
    revert this
    decide
  have hco : (':' : Char) ∉ l := fun hm => by
    have := (aux3_hostChar_not (h _ hm)).2.2.1
    revert this
    decide
  unfold hostinfo
  rw [aux3_rpartition_not_mem hat]
  simp only
  rw [aux3_partition_not_mem hbr]
  simp only [Bool.false_eq_true, if_false]
  rw [aux3_partition_not_mem hco]
  simp

theorem aux3_hostinfo_port {host ds : Str}
    (hh : ∀ c ∈ host, isHostChar c = true)
    (hd : ∀ c ∈ ds, isAsciiDigit c = true) (hds : ds ≠ []) :
    hostinfo (host ++ ':' :: ds) = (host, some ds) := by
  have hat : ('@' : Char) ∉ host ++ ':' :: ds := by
    intro hm
    rcases List.mem_append.mp hm with h2 | h2
    · have := (aux3_hostChar_not (hh _ h2)).1
      revert this
      decide
    · rcases List.mem_cons.mp h2 with h3 | h3
      · exact absurd h3 (by decide)
      · have := hd _ h3
        revert this
        decide
  have hbr : ('[' : Char) ∉ host ++ ':' :: ds := by
    intro hm
    rcases List.mem_append.mp hm with h2 | h2
    · have := (aux3_hostChar_not (hh _ h2)).2.1
      revert this
      decide
    · rcases List.mem_cons.mp h2 with h3 | h3
      · exact absurd h3 (by decide)
      · have := hd _ h3
        revert this
        decide
  have hco : (':' : Char) ∉ host := fun hm => by
    have := (aux3_hostChar_not (hh _ hm)).2.2.1
    revert this
    decide
  unfold hostinfo
  rw [aux3_rpartition_not_mem hat]
  simp only
  rw [aux3_partition_not_mem hbr]
  simp only [Bool.false_eq_true, if_false]
  rw [aux3_partition_append hco]
  simp [hds]

theorem aux3_pyHostname_of_hostinfo {nl h : Str} {p : Option Str}
    (hhi : hostinfo nl = (h, p)) (hne : h ≠ []) (hpc : ('%' : Char) ∉ h) :
    pyHostname nl = some (pyLower h) := by
  unfold pyHostname
  rw [hhi]
  simp only
  rw [if_neg hne, aux3_partition_not_mem hpc]
  simp

theorem aux3_pyPortVal_none {nl h : Str} (hhi : hostinfo nl = (h, none)) :
    pyPortVal nl = .ok none := by
  unfold pyPortVal
  rw [hhi]

theorem aux3_pyPortVal_digits {nl h ds : Str} (hhi : hostinfo nl = (h, some ds))
    (hd : ds.all isAsciiDigit = true) :
    pyPortVal nl
      = if digitsToNat ds ≤ 65535 then .ok (some (digitsToNat ds)) else .error () := by
  unfold pyPortVal
  rw [hhi]
  simp only [hd, if_true]

theorem aux3_urljoin_nil (u : Str) : pyUrljoin [] u = some u := by
  unfold pyUrljoin
  rw [if_pos rfl]

theorem aux3_unsplit {s n p : Str} (hs : s ≠ []) (hn : n ≠ [])
    (hp : p = [] ∨ p.head? = some '/') :
    pyUrlunsplit s n p [] [] = s ++ ':' :: '/' :: '/' :: (n ++ p) := by
  unfold pyUrlunsplit
  have hcond : n ≠ [] ∨ (p ≠ [] ∧ p.take 2 = ['/', '/']) := Or.inl hn
  rw [if_pos hcond]
  have hinner : (if p ≠ [] ∧ p.take 1 ≠ ['/'] then '/' :: p else p) = p := by
    rcases hp with hp | hp
    · rw [if_neg]
      simp [hp]
    · rw [if_neg]
      rintro ⟨h1, h2⟩
      apply h2
      cases p with
      | nil => simp at hp
      | cons a t =>
        simp only [List.head?_cons, Option.some_inj] at hp
        subst hp
        rfl
  rw [hinner]
  simp [hs]

/-! ### C3 helper layer: `normalize_host` -/

theorem aux3_normalize_host_eval {h : Str} (hne : h ≠ [])
    (hsp : ∀ c ∈ h, pyIsSpace c = false) :
    normalize_host (some h)
      = if startsWithStr (("www.").toList) (pyLower h) = true then (pyLower h).drop 4
        else pyLower h := by
  unfold normalize_host
  simp only
  rw [aux3_strip_eq_self hsp]
  rw [if_neg hne]

theorem aux3_lower_hostChar {c : Char} (h : isHostChar c = true) :
    isHostChar c.toLower = true := by
  have h3 := aux3_isHostChar_iff.mp h
  by_cases hcase : 65 ≤ c.toNat ∧ c.toNat ≤ 90
  · have := aux3_toLower_shift hcase
    exact aux3_isHostChar_iff.mpr (by omega)
  · rw [aux3_toLower_fix hcase]
    exact h

theorem aux3_nh_lower_chars {host : Str} (hh : ∀ c ∈ host, isHostChar c = true) :
    ∀ c ∈ normalize_host (some (pyLower host)), isHostChar c = true ∧ c.toLower = c := by
  have hlc : ∀ c ∈ pyLower host, isHostChar c = true ∧ c.toLower = c := by
    intro c hc
    unfold pyLower at hc
    obtain ⟨a, ha, rfl⟩ := List.mem_map.mp hc
    exact ⟨aux3_lower_hostChar (hh a ha), aux3_toLower_idem a⟩
  by_cases hemp : pyLower host = []
  · rw [hemp]
    intro c hc
    simp [normalize_host] at hc
  · have hsp : ∀ c ∈ pyLower host, pyIsSpace c = false := fun c hc =>
      (aux3_hostChar_not (hlc c hc).1).2.2.2.2.2.2.2.2.2.2.2.1
    rw [aux3_normalize_host_eval hemp hsp]
    rw [aux3_lower_idem]
    intro c hc
    by_cases hcase : startsWithStr (("www.").toList) (pyLower host) = true
    · rw [if_pos hcase] at hc
      exact hlc c (List.mem_of_mem_drop hc)
    · rw [if_neg hcase] at hc
      exact hlc c hc

theorem aux3_www_step {l : Str}
    (h8 : startsWithStr (("www.www.").toList) l = false) :
    startsWithStr (("www.").toList)
      (if startsWithStr (("www.").toList) l = true then l.drop 4 else l) = false := by
  by_cases hc : startsWithStr (("www.").toList) l = true
  · rw [if_pos hc]
    by_contra hcon
    rw [Bool.not_eq_false] at hcon
    have hlen : l.drop 4 = l.drop (("www.").toList).length := rfl
    rw [hlen] at hcon
    have h2 := aux3_prefix_drop hc hcon
    rw [show ((("www.").toList) ++ (("www.").toList)) = (("www.www.").toList) from rfl] at h2
    rw [h8] at h2
    exact absurd h2 (by decide)
  · rw [if_neg hc]
    exact Bool.eq_false_iff.mpr hc

theorem aux3_normalize_host_stable {H : Str} (hne : H ≠ [])
    (hlc : ∀ c ∈ H, isHostChar c = true ∧ c.toLower = c)
    (hw : startsWithStr (("www.").toList) H = false) :
    normalize_host (some H) = H := by
  have hsp : ∀ c ∈ H, pyIsSpace c = false := fun c hc =>
    (aux3_hostChar_not (hlc c hc).1).2.2.2.2.2.2.2.2.2.2.2.1
  have hid : pyLower H = H := aux3_lower_fix (fun c hc => (hlc c hc).2)
  rw [aux3_normalize_host_eval hne hsp, hid, hw]
  simp

/-! ### C3 helper layer: evaluating `canonicalize_url` on a decomposed URL -/

theorem aux3_canon_noport {sch host path : Str}
    (hlow : pyLower sch = ("http").toList ∨ pyLower sch = ("https").toList)
    (hhost1 : host ≠ []) (hhost2 : ∀ c ∈ host, isHostChar c = true)
    (hpath : path = [] ∨ path.head? = some '/')
    (hpathc : ∀ c ∈ path, isPathChar c = true) :
    canonicalize_url (sch ++ ':' :: '/' :: '/' :: (host ++ path)) none
      = (if normalize_host (some (pyLower host)) = [] then none
         else some (pyUrlunsplit (pyLower sch) (normalize_host (some (pyLower host)))
           (canonPath path) [] [])) := by
  have hschb : ∀ c ∈ sch, 97 ≤ c.toLower.toNat ∧ c.toLower.toNat ≤ 122 := by
    rcases hlow with hl | hl
    · exact aux3_lower_mem_bound hl (by decide)
    · exact aux3_lower_mem_bound hl (by decide)
  have hschf : ∀ c ∈ sch, isAsciiAlpha c = true ∧ schemeChars c = true ∧ c.toNat < 128
      ∧ pyIsSpace c = false ∧ 65 ≤ c.toNat ∧ c.toNat ≤ 122 :=
    fun c hc => aux3_schemeish (hschb c hc)
  have hsne : sch ≠ [] := by
    rintro rfl
    rcases hlow with hl | hl <;> (revert hl; decide)
  obtain ⟨s0, st, rfl⟩ : ∃ s0 st, sch = s0 :: st := by
    cases sch with
    | nil => exact absurd rfl hsne
    | cons a t => exact ⟨a, t, rfl⟩
  have hs0l : s0.toLower = 'h' := by
    rcases hlow with hl | hl <;>
      (have h2 := congrArg List.head? hl; simp [pyLower] at h2; exact h2)
  have hs0f := hschf s0 (by simp)
  have hstrip : pyStrip ((s0 :: st) ++ ':' :: '/' :: '/' :: (host ++ path))
      = (s0 :: st) ++ ':' :: '/' :: '/' :: (host ++ path) := by
    apply aux3_strip_eq_self
    intro c hc
    simp only [List.mem_append, List.mem_cons] at hc
    rcases hc with h | h | h | h | h
    · exact (hschf c (by rcases h with h | h <;> simp [h])).2.2.2.1
    · subst h; decide
    · subst h; decide
    · subst h; decide
    · rcases h with h | h
      · exact (aux3_hostChar_not (hhost2 c h)).2.2.2.2.2.2.2.2.2.2.2.1
      · have h2 := aux3_isPathChar_iff.mp (hpathc c h)
        exact Bool.eq_false_iff.mpr (fun hsp => by rw [aux3_pyIsSpace_iff] at hsp; omega)
  have hlowu : pyLower ((s0 :: st) ++ ':' :: '/' :: '/' :: (host ++ path))
      = 'h' :: pyLower (st ++ ':' :: '/' :: '/' :: (host ++ path)) := by
    simp [pyLower, hs0l]
  have hm1 : startsWithStr (("mailto:").toList)
      (pyLower ((s0 :: st) ++ ':' :: '/' :: '/' :: (host ++ path))) = false := by
    rw [hlowu]
    exact aux3_startsWith_head_ne rfl (by decide)
  have hm2 : startsWithStr (("tel:").toList)
      (pyLower ((s0 :: st) ++ ':' :: '/' :: '/' :: (host ++ path))) = false := by
    rw [hlowu]
    exact aux3_startsWith_head_ne rfl (by decide)
  have hm3 : startsWithStr (("javascript:").toList)
      (pyLower ((s0 :: st) ++ ':' :: '/' :: '/' :: (host ++ path))) = false := by
    rw [hlowu]
    exact aux3_startsWith_head_ne rfl (by decide)
  have hm4 : startsWithStr (("#").toList)
      (pyLower ((s0 :: st) ++ ':' :: '/' :: '/' :: (host ++ path))) = false := by
    rw [hlowu]
    exact aux3_startsWith_head_ne rfl (by decide)
  have hm5 : startsWithStr (("//").toList)
      ((s0 :: st) ++ ':' :: '/' :: '/' :: (host ++ path)) = false := by
    refine aux3_startsWith_head_ne rfl ?_
    intro he
    have := hs0f.2.2.2.2.1
    rw [he] at this
    revert this
    decide
  have hsplit : pyUrlsplit ((s0 :: st) ++ ':' :: '/' :: '/' :: (host ++ path)) []
      = some ⟨pyLower (s0 :: st), host, path, [], []⟩ := by
    apply aux3_urlsplit_canonical
    · simp
    · intro x hx
      simp only [List.head?_cons, Option.mem_some_iff] at hx
      subst hx
      exact ⟨hs0f.2.2.1, hs0f.1⟩
    · exact fun c hc => (hschf c hc).2.1
    · intro c hc
      have := aux3_hostChar_not (hhost2 c hc)
      omega
    · exact hpath
    · intro c hc
      have := aux3_isPathChar_iff.mp (hpathc c hc)
      omega
  have hhi := aux3_hostinfo_noport hhost2
  have hpct : ('%' : Char) ∉ host := fun hm => by
    have := (aux3_hostChar_not (hhost2 _ hm)).2.2.2.1
    revert this
    decide
  have hhn : pyHostname host = some (pyLower host) :=
    aux3_pyHostname_of_hostinfo hhi hhost1 hpct
  have hpv : pyPortVal host = .ok none := aux3_pyPortVal_none hhi
  have hschemeok : ¬(pyLower (pyLower (s0 :: st)) ≠ ("http").toList
      ∧ pyLower (pyLower (s0 :: st)) ≠ ("https").toList) := by
    rw [aux3_lower_idem]
    rcases hlow with hl | hl <;> simp [hl]
  unfold canonicalize_url
  rw [if_neg (by simp)]
  rw [hstrip]
  simp only [hm1, hm2, hm3, hm4, hm5, Bool.false_eq_true, false_or, or_self, if_false,
    Option.getD_none]
  rw [aux3_urljoin_nil]
  simp only [hsplit]
  rw [if_neg hschemeok]
  simp only [hhn, hpv]
  rw [show canonPath path = (let path0 := collapseSlashes (if path = [] then ['/'] else path);
    if path0 ≠ ['/'] then pyRstripSlash path0 else path0) from rfl]
  rw [if_neg (show ¬ (s0 :: st ++ ':' :: '/' :: '/' :: (host ++ path) = []) by simp)]
  rw [aux3_lower_idem]

theorem aux3_canon_port {sch host ds path : Str}
    (hlow : pyLower sch = ("http").toList ∨ pyLower sch = ("https").toList)
    (hhost1 : host ≠ []) (hhost2 : ∀ c ∈ host, isHostChar c = true)
    (hds1 : ds ≠ []) (hds2 : ∀ c ∈ ds, isAsciiDigit c = true)
    (hpath : path = [] ∨ path.head? = some '/')
    (hpathc : ∀ c ∈ path, isPathChar c = true) :
    canonicalize_url (sch ++ ':' :: '/' :: '/' :: ((host ++ ':' :: ds) ++ path)) none
      = (if normalize_host (some (pyLower host)) = [] then none
         else if digitsToNat ds ≤ 65535 then
           some (pyUrlunsplit (pyLower sch)
             (if digitsToNat ds ≠ 0
              then normalize_host (some (pyLower host)) ++ ':' :: natToStr (digitsToNat ds)
              else normalize_host (some (pyLower host)))
             (canonPath path) [] [])
         else none) := by
  have hschb : ∀ c ∈ sch, 97 ≤ c.toLower.toNat ∧ c.toLower.toNat ≤ 122 := by
    rcases hlow with hl | hl
    · exact aux3_lower_mem_bound hl (by decide)
    · exact aux3_lower_mem_bound hl (by decide)
  have hschf : ∀ c ∈ sch, isAsciiAlpha c = true ∧ schemeChars c = true ∧ c.toNat < 128
      ∧ pyIsSpace c = false ∧ 65 ≤ c.toNat ∧ c.toNat ≤ 122 :=
    fun c hc => aux3_schemeish (hschb c hc)
  have hsne : sch ≠ [] := by
    rintro rfl
    rcases hlow with hl | hl <;> (revert hl; decide)
  obtain ⟨s0, st, rfl⟩ : ∃ s0 st, sch = s0 :: st := by
    cases sch with
    | nil => exact absurd rfl hsne
    | cons a t => exact ⟨a, t, rfl⟩
  have hs0l : s0.toLower = 'h' := by
    rcases hlow with hl | hl <;>
      (have h2 := congrArg List.head? hl; simp [pyLower] at h2; exact h2)
  have hs0f := hschf s0 (by simp)
  have hnlc : ∀ c ∈ host ++ ':' :: ds, pyIsSpace c = false
      ∧ c.toNat ≠ 47 ∧ c.toNat ≠ 63 ∧ c.toNat ≠ 35 ∧ c.toNat ≠ 91 ∧ c.toNat ≠ 93
      ∧ c.toNat ≠ 9 ∧ c.toNat ≠ 13 ∧ c.toNat ≠ 10 := by
    intro c hc
    rcases List.mem_append.mp hc with h | h
    · have h2 := aux3_hostChar_not (hhost2 c h)
      exact ⟨h2.2.2.2.2.2.2.2.2.2.2.2.1, by omega, by omega, by omega, by omega, by omega,
        by omega, by omega, by omega⟩
    · rcases List.mem_cons.mp h with h | h
      · subst h
        refine ⟨by decide, ?_⟩
        decide
      · have h2 := aux3_isAsciiDigit_iff.mp (hds2 c h)
        refine ⟨Bool.eq_false_iff.mpr (fun hsp => by rw [aux3_pyIsSpace_iff] at hsp; omega),
          by omega, by omega, by omega, by omega, by omega, by omega, by omega, by omega⟩
  have hstrip : pyStrip ((s0 :: st) ++ ':' :: '/' :: '/' :: ((host ++ ':' :: ds) ++ path))
      = (s0 :: st) ++ ':' :: '/' :: '/' :: ((host ++ ':' :: ds) ++ path) := by
    apply aux3_strip_eq_self
    intro c hc
    simp only [List.mem_append, List.mem_cons] at hc
    rcases hc with h | h | h | h | h
    · exact (hschf c (by rcases h with h | h <;> simp [h])).2.2.2.1
    · subst h; decide
    · subst h; decide
    · subst h; decide
    · rcases h with (h | h | h) | h
      · exact (aux3_hostChar_not (hhost2 c h)).2.2.2.2.2.2.2.2.2.2.2.1
      · subst h; decide
      · exact (hnlc c (by simp [h])).1
      · have h2 := aux3_isPathChar_iff.mp (hpathc c h)
        exact Bool.eq_false_iff.mpr (fun hsp => by rw [aux3_pyIsSpace_iff] at hsp; omega)
  have hlowu : pyLower ((s0 :: st) ++ ':' :: '/' :: '/' :: ((host ++ ':' :: ds) ++ path))
      = 'h' :: pyLower (st ++ ':' :: '/' :: '/' :: ((host ++ ':' :: ds) ++ path)) := by
    simp [pyLower, hs0l]
  have hm1 : startsWithStr (("mailto:").toList)
      (pyLower ((s0 :: st) ++ ':' :: '/' :: '/' :: ((host ++ ':' :: ds) ++ path))) = false := by
    rw [hlowu]
    exact aux3_startsWith_head_ne rfl (by decide)
  have hm2 : startsWithStr (("tel:").toList)
      (pyLower ((s0 :: st) ++ ':' :: '/' :: '/' :: ((host ++ ':' :: ds) ++ path))) = false := by
    rw [hlowu]
    exact aux3_startsWith_head_ne rfl (by decide)
  have hm3 : startsWithStr (("javascript:").toList)
      (pyLower ((s0 :: st) ++ ':' :: '/' :: '/' :: ((host ++ ':' :: ds) ++ path))) = false := by
    rw [hlowu]
    exact aux3_startsWith_head_ne rfl (by decide)
  have hm4 : startsWithStr (("#").toList)
      (pyLower ((s0 :: st) ++ ':' :: '/' :: '/' :: ((host ++ ':' :: ds) ++ path))) = false := by
    rw [hlowu]
    exact aux3_startsWith_head_ne rfl (by decide)
  have hm5 : startsWithStr (("//").toList)
      ((s0 :: st) ++ ':' :: '/' :: '/' :: ((host ++ ':' :: ds) ++ path)) = false := by
    refine aux3_startsWith_head_ne rfl ?_
    intro he
    have := hs0f.2.2.2.2.1
    rw [he] at this
    revert this
    decide
  have hassoc : (host ++ ':' :: ds) ++ path = (host ++ ':' :: ds) ++ path := rfl
  have hsplit : pyUrlsplit ((s0 :: st) ++ ':' :: '/' :: '/' :: ((host ++ ':' :: ds) ++ path)) []
      = some ⟨pyLower (s0 :: st), host ++ ':' :: ds, path, [], []⟩ := by
    apply aux3_urlsplit_canonical
    · simp
    · intro x hx
      simp only [List.head?_cons, Option.mem_some_iff] at hx
      subst hx
      exact ⟨hs0f.2.2.1, hs0f.1⟩
    · exact fun c hc => (hschf c hc).2.1
    · exact fun c hc => (hnlc c hc).2
    · exact hpath
    · intro c hc
      have := aux3_isPathChar_iff.mp (hpathc c hc)
      omega
  have hhi := aux3_hostinfo_port hhost2 hds2 hds1
  have hpct : ('%' : Char) ∉ host := fun hm => by
    have := (aux3_hostChar_not (hhost2 _ hm)).2.2.2.1
    revert this
    decide
  have hhn : pyHostname (host ++ ':' :: ds) = some (pyLower host) :=
    aux3_pyHostname_of_hostinfo hhi hhost1 hpct
  have hall : ds.all isAsciiDigit = true := List.all_eq_true.mpr (fun c hc => hds2 c hc)
  have hpv := aux3_pyPortVal_digits hhi hall
  have hschemeok : ¬(pyLower (pyLower (s0 :: st)) ≠ ("http").toList
      ∧ pyLower (pyLower (s0 :: st)) ≠ ("https").toList) := by
    rw [aux3_lower_idem]
    rcases hlow with hl | hl <;> simp [hl]
  unfold canonicalize_url
  rw [if_neg (by simp)]
  rw [hstrip]
  simp only [hm1, hm2, hm3, hm4, hm5, Bool.false_eq_true, false_or, or_self, if_false,
    Option.getD_none]
  rw [aux3_urljoin_nil]
  simp only [hsplit]
  rw [if_neg hschemeok]
  simp only [hhn, hpv]
  rw [show canonPath path = (let path0 := collapseSlashes (if path = [] then ['/'] else path);
    if path0 ≠ ['/'] then pyRstripSlash path0 else path0) from rfl]
  rw [if_neg (show ¬ (s0 :: st ++ ':' :: '/' :: '/' :: ((host ++ ':' :: ds) ++ path) = [])
    by simp)]
  rw [aux3_lower_idem]
  by_cases hn : digitsToNat ds ≤ 65535
  · rw [if_pos hn, if_pos hn]
  · rw [if_neg hn, if_neg hn]

/-! ### C3 helper layer: a second canonicalization pass is the identity -/

theorem aux3_second_pass_noport {lsch H P : Str}
    (hlow : lsch = ("http").toList ∨ lsch = ("https").toList)
    (hH1 : H ≠ []) (hH2 : ∀ c ∈ H, isHostChar c = true ∧ c.toLower = c)
    (hHw : startsWithStr (("www.").toList) H = false)
    (hPh : P.head? = some '/')
    (hPc : ∀ c ∈ P, 32 < c.toNat ∧ c.toNat ≠ 35 ∧ c.toNat ≠ 63)
    (hPch : List.Chain' (fun a b => ¬(a = '/' ∧ b = '/')) P)
    (hPl : P = ['/'] ∨ P.getLast? ≠ some '/') :
    canonicalize_url (lsch ++ ':' :: '/' :: '/' :: (H ++ P)) none
      = some (pyUrlunsplit lsch H P [] []) := by
  have hll : pyLower lsch = lsch := by
    rcases hlow with hl | hl <;> (subst hl; decide)
  have hlow2 : pyLower lsch = ("http").toList ∨ pyLower lsch = ("https").toList := by
    rw [hll]
    exact hlow
  have hHid : pyLower H = H := aux3_lower_fix (fun c hc => (hH2 c hc).2)
  have hnh : normalize_host (some (pyLower H)) = H := by
    rw [hHid]
    exact aux3_normalize_host_stable hH1 hH2 hHw
  rw [aux3_canon_noport hlow2 hH1 (fun c hc => (hH2 c hc).1)
    (Or.inr hPh) (fun c hc => aux3_isPathChar_iff.mpr (hPc c hc))]
  rw [hnh, if_neg hH1, aux3_canonPath_id hPh hPch hPl, hll]

theorem aux3_second_pass_port {lsch H P : Str} {n : Nat}
    (hlow : lsch = ("http").toList ∨ lsch = ("https").toList)
    (hH1 : H ≠ []) (hH2 : ∀ c ∈ H, isHostChar c = true ∧ c.toLower = c)
    (hHw : startsWithStr (("www.").toList) H = false)
    (hn1 : n ≠ 0) (hn2 : n ≤ 65535)
    (hPh : P.head? = some '/')
    (hPc : ∀ c ∈ P, 32 < c.toNat ∧ c.toNat ≠ 35 ∧ c.toNat ≠ 63)
    (hPch : List.Chain' (fun a b => ¬(a = '/' ∧ b = '/')) P)
    (hPl : P = ['/'] ∨ P.getLast? ≠ some '/') :
    canonicalize_url (lsch ++ ':' :: '/' :: '/' :: ((H ++ ':' :: natToStr n) ++ P)) none
      = some (pyUrlunsplit lsch (H ++ ':' :: natToStr n) P [] []) := by
  have hll : pyLower lsch = lsch := by
    rcases hlow with hl | hl <;> (subst hl; decide)
  have hlow2 : pyLower lsch = ("http").toList ∨ pyLower lsch = ("https").toList := by
    rw [hll]
    exact hlow
  have hHid : pyLower H = H := aux3_lower_fix (fun c hc => (hH2 c hc).2)
  have hnh : normalize_host (some (pyLower H)) = H := by
    rw [hHid]
    exact aux3_normalize_host_stable hH1 hH2 hHw
  have hdig : ∀ c ∈ natToStr n, isAsciiDigit c = true := fun c hc =>
    aux3_isAsciiDigit_iff.mpr (aux3_natToStr_digits n c hc)
  rw [aux3_canon_port hlow2 hH1 (fun c hc => (hH2 c hc).1) (aux3_natToStr_ne_nil n) hdig
    (Or.inr hPh) (fun c hc => aux3_isPathChar_iff.mpr (hPc c hc))]
  rw [hnh, if_neg hH1, aux3_digitsToNat_natToStr, if_pos hn2, if_pos hn1,
    aux3_canonPath_id hPh hPch hPl, hll]

theorem aux3_first_pass_noport {sch host path v : Str}
    (hlow : pyLower sch = ("http").toList ∨ pyLower sch = ("https").toList)
    (hhost1 : host ≠ []) (hhost2 : ∀ c ∈ host, isHostChar c = true)
    (hpath : path = [] ∨ path.head? = some '/')
    (hpathc : ∀ c ∈ path, isPathChar c = true)
    (hww : startsWithStr (("www.www.").toList) (pyLower host) = false)
    (h : canonicalize_url (sch ++ ':' :: '/' :: '/' :: (host ++ path)) none = some v) :
    canonicalize_url v none = some v := by
  rw [aux3_canon_noport hlow hhost1 hhost2 hpath hpathc] at h
  by_cases hH : normalize_host (some (pyLower host)) = []
  · rw [if_pos hH] at h
    simp at h
  · rw [if_neg hH] at h
    have hveq : v = pyUrlunsplit (pyLower sch) (normalize_host (some (pyLower host)))
        (canonPath path) [] [] := (Option.some.inj h).symm
    have hsne2 : pyLower sch ≠ [] := by
      rcases hlow with hl | hl <;> simp [hl]
    have hH2 := aux3_nh_lower_chars hhost2
    have hlne : pyLower host ≠ [] := by
      intro hemp
      exact hhost1 (by simpa [pyLower] using hemp)
    have hlsp : ∀ c ∈ pyLower host, pyIsSpace c = false := by
      intro c hc
      obtain ⟨a, ha, rfl⟩ := List.mem_map.mp hc
      exact (aux3_hostChar_not (aux3_lower_hostChar (hhost2 a ha))).2.2.2.2.2.2.2.2.2.2.2.1
    have hHw : startsWithStr (("www.").toList) (normalize_host (some (pyLower host)))
        = false := by
      have heval := aux3_normalize_host_eval hlne hlsp
      rw [aux3_lower_idem] at heval
      rw [heval]
      exact aux3_www_step hww
    have hprops := aux3_canonPath_props hpath
      (fun c hc => aux3_isPathChar_iff.mp (hpathc c hc))
    have hv : pyUrlunsplit (pyLower sch) (normalize_host (some (pyLower host)))
        (canonPath path) [] []
        = pyLower sch ++ ':' :: '/' :: '/'
          :: (normalize_host (some (pyLower host)) ++ canonPath path) :=
      aux3_unsplit hsne2 hH (Or.inr hprops.1)
    rw [hveq, hv]
    rw [aux3_second_pass_noport hlow hH hH2 hHw hprops.1 hprops.2.1 hprops.2.2.1
      hprops.2.2.2]
    rw [hv]

theorem aux3_first_pass_port {sch host ds path v : Str}
    (hlow : pyLower sch = ("http").toList ∨ pyLower sch = ("https").toList)
    (hhost1 : host ≠ []) (hhost2 : ∀ c ∈ host, isHostChar c = true)
    (hds1 : ds ≠ []) (hds2 : ∀ c ∈ ds, isAsciiDigit c = true)
    (hpath : path = [] ∨ path.head? = some '/')
    (hpathc : ∀ c ∈ path, isPathChar c = true)
    (hww : startsWithStr (("www.www.").toList) (pyLower host) = false)
    (h : canonicalize_url (sch ++ ':' :: '/' :: '/' :: ((host ++ ':' :: ds) ++ path)) none
      = some v) :
    canonicalize_url v none = some v := by
  rw [aux3_canon_port hlow hhost1 hhost2 hds1 hds2 hpath hpathc] at h
  by_cases hH : normalize_host (some (pyLower host)) = []
  · rw [if_pos hH] at h
    simp at h
  · rw [if_neg hH] at h
    by_cases hn2 : digitsToNat ds ≤ 65535
    · rw [if_pos hn2] at h
      have hsne2 : pyLower sch ≠ [] := by
        rcases hlow with hl | hl <;> simp [hl]
      have hH2 := aux3_nh_lower_chars hhost2
      have hlne : pyLower host ≠ [] := by
        intro hemp
        exact hhost1 (by simpa [pyLower] using hemp)
      have hlsp : ∀ c ∈ pyLower host, pyIsSpace c = false := by
        intro c hc
        obtain ⟨a, ha, rfl⟩ := List.mem_map.mp hc
        exact (aux3_hostChar_not (aux3_lower_hostChar (hhost2 a ha))).2.2.2.2.2.2.2.2.2.2.2.1
      have hHw : startsWithStr (("www.").toList) (normalize_host (some (pyLower host)))
          = false := by
        have heval := aux3_normalize_host_eval hlne hlsp
        rw [aux3_lower_idem] at heval
        rw [heval]
        exact aux3_www_step hww
      have hprops := aux3_canonPath_props hpath
        (fun c hc => aux3_isPathChar_iff.mp (hpathc c hc))
      by_cases hn1 : digitsToNat ds ≠ 0
      · rw [if_pos hn1] at h
        have hveq : v = pyUrlunsplit (pyLower sch)
            (normalize_host (some (pyLower host)) ++ ':' :: natToStr (digitsToNat ds))
            (canonPath path) [] [] := (Option.some.inj h).symm
        have hv : pyUrlunsplit (pyLower sch)
            (normalize_host (some (pyLower host)) ++ ':' :: natToStr (digitsToNat ds))
            (canonPath path) [] []
            = pyLower sch ++ ':' :: '/' :: '/'
              :: ((normalize_host (some (pyLower host)) ++ ':' :: natToStr (digitsToNat ds))
                ++ canonPath path) :=
          aux3_unsplit hsne2 (by simp) (Or.inr hprops.1)
        rw [hveq, hv]
        rw [aux3_second_pass_port hlow hH hH2 hHw hn1 hn2 hprops.1 hprops.2.1 hprops.2.2.1
          hprops.2.2.2]
        rw [hv]
      · rw [if_neg hn1] at h
        have hveq : v = pyUrlunsplit (pyLower sch) (normalize_host (some (pyLower host)))
            (canonPath path) [] [] := (Option.some.inj h).symm
        have hv : pyUrlunsplit (pyLower sch) (normalize_host (some (pyLower host)))
            (canonPath path) [] []
            = pyLower sch ++ ':' :: '/' :: '/'
              :: (normalize_host (some (pyLower host)) ++ canonPath path) :=
          aux3_unsplit hsne2 hH (Or.inr hprops.1)
        rw [hveq, hv]
        rw [aux3_second_pass_noport hlow hH hH2 hHw hprops.1 hprops.2.1 hprops.2.2.1
          hprops.2.2.2]
        rw [hv]
    · rw [if_neg hn2] at h
      simp at h

/-- C3 (amended).  Canonicalization is idempotent on valid absolute
`http(s)://host[:port][/path]` URLs whose host does not begin with a doubled
`www.www.` prefix: whenever `canonicalize_url u` is non-null, applying
`canonicalize_url` to its result returns that same result.  (For a host
beginning `www.www.` the claim fails: `normalize_host` strips exactly one
leading `www.` per pass, see the counterexample.) -/
theorem c3_canonicalize_idempotent (u v : Str)
    (hu : validAbsUrl u = true)
    (hww : startsWithStr (("www.www.").toList) (pyLower (urlHostPart u)) = false)
    (h : canonicalize_url u none = some v) :
    canonicalize_url v none = some v := by
  unfold validAbsUrl at hu
  rcases hspq : splitFirst ':' u with _ | ⟨sch, rest⟩
  · rw [hspq] at hu
    simp at hu
  · rw [hspq] at hu
    rw [Bool.and_eq_true] at hu
    obtain ⟨hlowb, hrest⟩ := hu
    have hlow : pyLower sch = ("http").toList ∨ pyLower sch = ("https").toList := by
      rw [Bool.or_eq_true] at hlowb
      rcases hlowb with h2 | h2
      · exact Or.inl (of_decide_eq_true h2)
      · exact Or.inr (of_decide_eq_true h2)
    obtain ⟨hueq, hcns⟩ := aux3_splitFirst_inv hspq
    unfold validHostRest at hrest
    rw [Bool.and_eq_true] at hrest
    obtain ⟨htk2, hrest2⟩ := hrest
    have htk2' : rest.take 2 = ['/', '/'] := of_decide_eq_true htk2
    obtain ⟨r2, hr2⟩ : ∃ r2, rest = '/' :: '/' :: r2 := by
      cases rest with
      | nil => simp at htk2'
      | cons a t =>
        cases t with
        | nil => simp at htk2'
        | cons b t2 =>
          simp only [List.take_succ_cons, List.take_zero, List.cons.injEq, and_true] at htk2'
          exact ⟨t2, by rw [htk2'.1, htk2'.2]⟩
    subst hr2
    simp only [List.drop_succ_cons, List.drop_zero] at hrest2
    rw [Bool.and_eq_true] at hrest2
    obtain ⟨hhne, hafter⟩ := hrest2
    have hhost1 : r2.takeWhile isHostChar ≠ [] := of_decide_eq_true hhne
    have hhost2 : ∀ c ∈ r2.takeWhile isHostChar, isHostChar c = true := fun c hc =>
      List.mem_takeWhile_imp hc
    obtain ⟨after, hr2eq⟩ :=
      ( List.takeWhile_prefix isHostChar : r2.takeWhile isHostChar <+: r2)
    have hdropeq : r2.drop (r2.takeWhile isHostChar).length = after := by
      have h2 := List.drop_left (r2.takeWhile isHostChar) after
      rw [hr2eq] at h2
      exact h2
    rw [hdropeq] at hafter
    have hwwp : startsWithStr (("www.www.").toList)
        (pyLower (r2.takeWhile isHostChar)) = false := by
      have hpart : urlHostPart u = r2.takeWhile isHostChar := by
        unfold urlHostPart
        rw [hspq]
        simp
      rw [hpart] at hww
      exact hww
    rw [hueq] at h
    rw [show (sch ++ ':' :: '/' :: '/' :: r2 : Str)
      = sch ++ ':' :: '/' :: '/' :: (r2.takeWhile isHostChar ++ after) from by rw [hr2eq]] at h
    unfold validAfterHost at hafter
    by_cases ha1 : after = []
    · subst ha1
      rw [List.append_nil] at h
      rw [show (r2.takeWhile isHostChar : Str)
        = r2.takeWhile isHostChar ++ ([] : Str) from (List.append_nil _).symm] at h
      exact aux3_first_pass_noport hlow hhost1 hhost2 (Or.inl rfl) (by simp) hwwp h
    · rw [if_neg ha1] at hafter
      by_cases ha2 : after.head? = some ':'
      · rw [if_pos ha2] at hafter
        obtain ⟨r4, hr4⟩ : ∃ r4, after = ':' :: r4 := by
          cases after with
          | nil => simp at ha2
          | cons a t =>
            simp only [List.head?_cons, Option.some_inj] at ha2
            exact ⟨t, by rw [ha2]⟩
        subst hr4
        simp only [List.drop_succ_cons, List.drop_zero] at hafter
        rw [Bool.and_eq_true] at hafter
        obtain ⟨hdsb, hr5or⟩ := hafter
        have hds1 : r4.takeWhile isAsciiDigit ≠ [] := of_decide_eq_true hdsb
        have hds2 : ∀ c ∈ r4.takeWhile isAsciiDigit, isAsciiDigit c = true := fun c hc =>
          List.mem_takeWhile_imp hc
        obtain ⟨r5, hr4eq⟩ :=
          ( List.takeWhile_prefix isAsciiDigit : r4.takeWhile isAsciiDigit <+: r4)
        have hdropeq5 : r4.drop (r4.takeWhile isAsciiDigit).length = r5 := by
          have h2 := List.drop_left (r4.takeWhile isAsciiDigit) r5
          rw [hr4eq] at h2
          exact h2
        rw [show ((r2.takeWhile isHostChar) ++ ':' :: r4 : Str)
          = ((r2.takeWhile isHostChar) ++ ':' :: r4.takeWhile isAsciiDigit) ++ r5
          from by rw [List.append_assoc]; simp [hr4eq]] at h
        rw [Bool.or_eq_true] at hr5or
        rcases hr5or with h5 | h5
        · have h5' : r4.drop (r4.takeWhile isAsciiDigit).length = [] := of_decide_eq_true h5
          rw [hdropeq5] at h5'
          subst h5'
          exact aux3_first_pass_port hlow hhost1 hhost2 hds1 hds2 (Or.inl rfl)
            (by simp) hwwp h
        · rw [Bool.and_eq_true] at h5
          obtain ⟨h5h, h5a⟩ := h5
          have h5h' : (r4.drop (r4.takeWhile isAsciiDigit).length).head? = some '/' :=
            of_decide_eq_true h5h
          have h5a' : (r4.drop (r4.takeWhile isAsciiDigit).length).all isPathChar = true := h5a
          rw [hdropeq5] at h5h' h5a'
          exact aux3_first_pass_port hlow hhost1 hhost2 hds1 hds2
            (Or.inr h5h') (fun c hc => List.all_eq_true.mp h5a' c hc)
            hwwp h
      · rw [if_neg ha2] at hafter
        rw [Bool.and_eq_true] at hafter
        obtain ⟨hhd, hall⟩ := hafter
        exact aux3_first_pass_noport hlow hhost1 hhost2 (Or.inr (of_decide_eq_true hhd))
          (fun c hc => List.all_eq_true.mp hall c hc) hwwp h

set_option maxRecDepth 40000 in
/-- Counterexample to C3 as stated: `https://www.www.example.com/` is a valid
absolute URL, its canonical form is `https://www.example.com/`, but
canonicalizing that result strips another `www.` — canonicalization is not
idempotent on it. -/
theorem c3_canonicalize_idempotent_cex :
    validAbsUrl (("https://www.www.example.com/").toList) = true
      ∧ canonicalize_url (("https://www.www.example.com/").toList) none
          = some (("https://www.example.com/").toList)
      ∧ canonicalize_url (("https://www.example.com/").toList) none
          ≠ some (("https://www.example.com/").toList) := by
  refine ⟨by decide, by decide, by decide⟩

set_option maxRecDepth 40000 in
/-- Witness for C3 (amended) at the concrete URL
`https://example.com/events/`, whose canonical form drops the trailing
slash and is then a fixed point. -/
theorem c3_canonicalize_idempotent_witness :
    canonicalize_url (("https://example.com/events/").toList) none
        = some (("https://example.com/events").toList)
      ∧ canonicalize_url (("https://example.com/events").toList) none
        = some (("https://example.com/events").toList) :=
  ⟨by decide, c3_canonicalize_idempotent (("https://example.com/events/").toList)
    (("https://example.com/events").toList) (by decide) (by decide) (by decide)⟩
